import Mathlib

/-!
Shallow embedding of the core of `price-checker-api.py` (a retail price
checker).  Python floats are modelled as exact rationals, Python dicts as
insertion-ordered association lists, Python exceptions as an explicit error
type.  Definitions are translated clause by clause from the source; the
theorems at the end of the file settle the specified properties.
-/

namespace PriceChecker

/-! ### Character and string helpers (Python `str.lower`, `\w`, `\s`, ...) -/

/-- Lowercasing as `str.lower` acts on the alphabet used by this program:
ASCII letters plus the accented Spanish letters appearing in the source. -/
def pyLowerChar (c : Char) : Char :=
  if 'A' ≤ c ∧ c ≤ 'Z' then Char.ofNat (c.toNat + 32)
  else if c = 'Á' then 'á'
  else if c = 'É' then 'é'
  else if c = 'Í' then 'í'
  else if c = 'Ó' then 'ó'
  else if c = 'Ú' then 'ú'
  else if c = 'Ñ' then 'ñ'
  else if c = 'Ü' then 'ü'
  else c

def pyLower (s : String) : String :=
  String.mk (s.data.map pyLowerChar)

/-- The letter class of `normalize_product_name`'s regex:
`[a-zA-ZáéíóúñÁÉÍÓÚÑ]`. -/
def isSpanishLetter (c : Char) : Bool :=
  decide (('a' ≤ c ∧ c ≤ 'z') ∨ ('A' ≤ c ∧ c ≤ 'Z') ∨
    c = 'á' ∨ c = 'é' ∨ c = 'í' ∨ c = 'ó' ∨ c = 'ú' ∨ c = 'ñ' ∨
    c = 'Á' ∨ c = 'É' ∨ c = 'Í' ∨ c = 'Ó' ∨ c = 'Ú' ∨ c = 'Ñ')

/-- Python regex word character (`\w`) restricted to the alphabet relevant
here: alphanumerics, underscore and the accented letters. -/
def isWordChar (c : Char) : Bool :=
  isSpanishLetter c || c.isDigit || decide (c = '_' ∨ c = 'ü' ∨ c = 'Ü')

/-- Python regex whitespace (`\s`) on ASCII. -/
def isPySpace (c : Char) : Bool :=
  decide (c = ' ' ∨ c = '\t' ∨ c = '\n' ∨ c = '\x0d' ∨ c = '\x0b' ∨ c = '\x0c')

/-- Substring containment, `needle in haystack` on Python strings. -/
def containsSub (haystack needle : String) : Bool :=
  decide (List.IsInfix needle.data haystack.data)

/-! ### Python `float()` of a string -/

/-- Digits of a char list as a natural number. -/
def digitsToNat (cs : List Char) : Nat :=
  cs.foldl (fun acc c => acc * 10 + (c.toNat - '0'.toNat)) 0

/-- Interpret an integer part / fraction part pair as a rational. -/
def fracToRat (ip fp : List Char) : ℚ :=
  (digitsToNat ip : ℚ) + (digitsToNat fp : ℚ) / ((10 : ℚ) ^ fp.length)

/-- Python `float(s)` for a string of digits and dots only (the shape that
survives `re.sub(r'[^\d.]', '', s)` in `consolidate_prices`): an optional
integer part, at most one dot, at least one digit overall.  Returns `none`
exactly when Python raises `ValueError`. -/
def pyFloatDigitsDots (s : String) : Option ℚ :=
  let cs := s.data
  if cs.all (fun c => c.isDigit || decide (c = '.')) then
    match cs.splitOn '.' with
    | [ip] => if ip = [] then none else some (fracToRat ip [])
    | [ip, fp] => if ip = [] ∧ fp = [] then none else some (fracToRat ip fp)
    | _ => none
  else none

/-- Python `float(s)` for a general string: optional surrounding whitespace,
optional sign, digits with an optional fractional part, optional exponent.
`inf`/`nan` literals are outside the rational model and yield `none`. -/
def pyFloatString (s : String) : Option ℚ :=
  let cs := (s.data.dropWhile isPySpace).reverse.dropWhile isPySpace |>.reverse
  let (sign, cs) :=
    match cs with
    | '+' :: rest => ((1 : ℚ), rest)
    | '-' :: rest => ((-1 : ℚ), rest)
    | _ => ((1 : ℚ), cs)
  let mantissa := cs.takeWhile (fun c => c.isDigit || decide (c = '.'))
  let rest := cs.drop mantissa.length
  let expPart : Option ℚ :=
    match rest with
    | [] => some 1
    | e :: es =>
      if e = 'e' ∨ e = 'E' then
        let (esign, ds) :=
          match es with
          | '+' :: r => ((1 : Int), r)
          | '-' :: r => ((-1 : Int), r)
          | _ => ((1 : Int), es)
        if ds ≠ [] ∧ ds.all Char.isDigit then
          some ((10 : ℚ) ^ (esign * (digitsToNat ds : Int)))
        else none
      else none
  match expPart with
  | none => none
  | some ex =>
    match mantissa.splitOn '.' with
    | [ip] => if ip = [] then none else some (sign * fracToRat ip [] * ex)
    | [ip, fp] =>
      if ip = [] ∧ fp = [] then none
      else if (ip ++ fp).all Char.isDigit then some (sign * fracToRat ip fp * ex)
      else none
    | _ => none

/-! ### Match scorer: `normalize_product_name`, `calculate_product_match_score` -/

/-- Maximal runs of word characters in a char list (the units on which the
regex `\b[letters]+\b` of `normalize_product_name` can match: a run flanked
by non-word characters is matched iff it consists of letters only). -/
def wordRunsAux : List Char → List Char → List (List Char)
  | [], cur => if cur = [] then [] else [cur.reverse]
  | c :: cs, cur =>
    if isWordChar c then wordRunsAux cs (c :: cur)
    else if cur = [] then wordRunsAux cs []
    else cur.reverse :: wordRunsAux cs []

def wordRuns (cs : List Char) : List (List Char) := wordRunsAux cs []

/-- The stopword set of `normalize_product_name`. -/
def stopwords : List String :=
  ["de", "la", "el", "los", "las", "un", "una", "con", "para", "por", "en",
   "ml", "gr", "kg", "lt", "pz", "pzas"]

/-- `normalize_product_name`: lowercase, `re.findall` of the letter-class
word regex (= maximal word runs made of letters only), drop stopwords and
words of length ≤ 2. -/
def normalize_product_name (name : String) : List String :=
  if name = "" then []
  else
    let words := (wordRuns (pyLower name).data).filter (fun r => r.all isSpanishLetter)
    (words.map String.mk).filter (fun w => ¬ w ∈ stopwords ∧ w.length > 2)

/-- First-occurrence deduplication: the model of Python `set(...)` as an
ordered collection.  CPython iterates a set in hash order; the element the
scorer takes as `list(search_keywords)[0]` is modelled as the first distinct
keyword. -/
def pyDedupAux : List String → List String → List String
  | _, [] => []
  | seen, x :: xs =>
    if x ∈ seen then pyDedupAux seen xs else x :: pyDedupAux (x :: seen) xs

def pyDedup (l : List String) : List String := pyDedupAux [] l

/-- `calculate_product_match_score`: Jaccard similarity of the two keyword
sets plus a 0.2 brand bonus (capped at 1.0) when the representative of the
query keyword set lies in the candidate's set; 0.0 when either raw string is
empty, 0.5 when the query keyword set is empty. -/
def calculate_product_match_score (search_name found_name : String) : ℚ :=
  if search_name = "" ∨ found_name = "" then 0
  else
    let search_keywords := pyDedup (normalize_product_name search_name)
    let found_keywords := pyDedup (normalize_product_name found_name)
    if search_keywords = [] then 1/2
    else
      let inter := search_keywords.filter (· ∈ found_keywords)
      let union := pyDedup (search_keywords ++ found_keywords)
      if union = [] then 0
      else
        let jaccard : ℚ := (inter.length : ℚ) / (union.length : ℚ)
        let brandBonus :=
          match search_keywords.head? with
          | some b => ¬ found_keywords.isEmpty && found_keywords.contains b
          | none => false
        if brandBonus then min 1 (jaccard + 1/5) else jaccard

/-! ### A small backtracking regex engine

Enough of Python `re` to run the patterns of `is_multipack` and
`extract_products_from_html` verbatim: literals, character classes, greedy
and lazy repetition (unbounded and counted), alternation, capture groups and
the word boundary `\b`.  The engine implements the standard leftmost-first
backtracking semantics (alternation prefers its left branch, greedy
repetition prefers longer matches, lazy repetition shorter ones), which is
what CPython's `re` produces for these patterns.  A fuel parameter bounds
the backtracking search; it is ample for every input considered here. -/

inductive RE where
  | eps
  | cls (p : Char → Bool)
  | seq (a b : RE)
  | alt (a b : RE)
  | star (lazy : Bool) (a : RE)
  | rep (lazy : Bool) (lo hi : Nat) (a : RE)
  | grp (idx : Nat) (a : RE)
  | wordB

namespace RE

/-- Word-boundary test between the previous character (if any) and the next
character (if any). -/
def isBoundary (prev next : Option Char) : Bool :=
  let w : Option Char → Bool := fun o => (o.map isWordChar).getD false
  w prev != w next

/-- Continuation-passing backtracking matcher.  `prev` is the character just
before the current position (for `\b`), `caps` accumulates captures, most
recent first.  Returns the continuation's first success in leftmost-first
order, or `none` (also when fuel runs out). -/
def matchk {α : Type} : Nat → RE → Option Char → List Char →
    List (Nat × List Char) →
    (Option Char → List Char → List (Nat × List Char) → Option α) → Option α
  | 0, _, _, _, _, _ => none
  | _ + 1, eps, prev, s, caps, k => k prev s caps
  | _ + 1, cls p, _, s, caps, k =>
    match s with
    | [] => none
    | c :: rest => if p c then k (some c) rest caps else none
  | f + 1, seq a b, prev, s, caps, k =>
    matchk f a prev s caps fun p' s' c' => matchk f b p' s' c' k
  | f + 1, alt a b, prev, s, caps, k =>
    (matchk f a prev s caps k).orElse fun _ => matchk f b prev s caps k
  | f + 1, star lazy a, prev, s, caps, k =>
    let more : Option α := matchk f a prev s caps fun p' s' c' =>
      if s'.length < s.length then matchk f (star lazy a) p' s' c' k else none
    if lazy then (k prev s caps).orElse fun _ => more
    else more.orElse fun _ => k prev s caps
  | f + 1, rep lazy lo hi a, prev, s, caps, k =>
    match lo, hi with
    | 0, 0 => k prev s caps
    | 0, h + 1 =>
      let more : Option α := matchk f a prev s caps fun p' s' c' =>
        matchk f (rep lazy 0 h a) p' s' c' k
      if lazy then (k prev s caps).orElse fun _ => more
      else more.orElse fun _ => k prev s caps
    | l + 1, h =>
      matchk f a prev s caps fun p' s' c' =>
        matchk f (rep lazy l (h - 1) a) p' s' c' k
  | f + 1, grp i a, prev, s, caps, k =>
    matchk f a prev s caps fun p' s' c' =>
      k p' s' ((i, s.take (s.length - s'.length)) :: c')
  | _ + 1, wordB, prev, s, caps, k =>
    if isBoundary prev s.head? then k prev s caps else none

/-- Fuel used for one anchored match attempt. -/
def fuelFor (s : List Char) : Nat := 400 * (s.length + 5)

/-- Try to match `re` anchored at the current position.  On success returns
the length of the match and the captures. -/
def matchHere (re : RE) (prev : Option Char) (s : List Char) :
    Option (Nat × List (Nat × List Char)) :=
  matchk (fuelFor s) re prev s [] fun _ s' caps => some (s.length - s'.length, caps)

/-- `re.search`: leftmost match over all start positions.  Returns the
captures of the first match. -/
def searchAux (re : RE) : Nat → Option Char → List Char →
    Option (List (Nat × List Char))
  | 0, _, _ => none
  | fuel + 1, prev, s =>
    match matchHere re prev s with
    | some (_, caps) => some caps
    | none =>
      match s with
      | [] => none
      | c :: rest => searchAux re fuel (some c) rest

def search (re : RE) (s : String) : Option (List (Nat × List Char)) :=
  searchAux re (s.data.length + 1) none s.data

/-- `re.findall`: non-overlapping leftmost matches, scanning left to right;
an empty match advances by one character, as in Python. -/
def findAllAux (re : RE) : Nat → Option Char → List Char →
    List (List (Nat × List Char)) → List (List (Nat × List Char))
  | 0, _, _, acc => acc.reverse
  | fuel + 1, prev, s, acc =>
    match matchHere re prev s with
    | some (len, caps) =>
      if 0 < len ∧ len ≤ s.length then
        findAllAux re fuel (s.take len).getLast? (s.drop len) (caps :: acc)
      else
        match s with
        | [] => (caps :: acc).reverse
        | c :: rest => findAllAux re fuel (some c) rest (caps :: acc)
    | none =>
      match s with
      | [] => acc.reverse
      | c :: rest => findAllAux re fuel (some c) rest acc

def findAll (re : RE) (s : String) : List (List (Nat × List Char)) :=
  findAllAux re (s.data.length + 1) none s.data []

/-- Read group `i` from a capture list (most recent binding wins; Python
returns the empty string for an unset group). -/
def capGet (caps : List (Nat × List Char)) (i : Nat) : String :=
  match caps.find? (fun p => p.1 = i) with
  | some p => String.mk p.2
  | none => ""

/-- All matches of a one-group pattern. -/
def findAll1 (re : RE) (s : String) : List String :=
  (findAll re s).map (capGet · 1)

/-- All matches of a two-group pattern, as (group1, group2) pairs. -/
def findAll2 (re : RE) (s : String) : List (String × String) :=
  (findAll re s).map fun caps => (capGet caps 1, capGet caps 2)

/-- First match of a one-group pattern. -/
def search1 (re : RE) (s : String) : Option String :=
  (search re s).map (capGet · 1)

end RE

/-! ### Pattern combinators -/

/-- Literal character (case-sensitive). -/
def rch (c : Char) : RE := RE.cls (· = c)

/-- Literal character under `re.IGNORECASE` (ASCII case folding, as CPython
applies to ASCII pattern literals). -/
def rich (c : Char) : RE := RE.cls (fun x => pyLowerChar x = pyLowerChar c)

def rlit (s : String) : RE := s.data.foldr (fun c r => RE.seq (rch c) r) RE.eps

def rilit (s : String) : RE := s.data.foldr (fun c r => RE.seq (rich c) r) RE.eps

def rseq (l : List RE) : RE := l.foldr RE.seq RE.eps

def rdigit : RE := RE.cls Char.isDigit

def rws : RE := RE.cls isPySpace

/-- `[\s\S]` — any character. -/
def rany : RE := RE.cls fun _ => true

/-- `[^c]` — any character but `c`. -/
def rnot (c : Char) : RE := RE.cls (· ≠ c)

def rstar (a : RE) : RE := RE.star false a

def rstarL (a : RE) : RE := RE.star true a

def rplus (a : RE) : RE := RE.seq a (rstar a)

def ropt (a : RE) : RE := RE.alt a RE.eps

/-- Left and right curly braces, by code point. -/
def braceL : Char := Char.ofNat 123

def braceR : Char := Char.ofNat 125

/-- Single and double quote characters. -/
def squote : Char := Char.ofNat 39

def dquote : Char := Char.ofNat 34

/-! ### Multipack detector: `is_multipack` -/

/-- The multipack pattern list, verbatim from the source.  `\b` is
`RE.wordB`, `\d+` is `rplus rdigit`, `\s*` is `rstar rws`, `s?` is an
optional literal. -/
def multipack_patterns : List RE :=
  [ -- \b\d+\s*pack\b
    rseq [RE.wordB, rplus rdigit, rstar rws, rlit "pack", RE.wordB],
    -- \b\d+\s*pzas?\b
    rseq [RE.wordB, rplus rdigit, rstar rws, rlit "pza", ropt (rch 's'), RE.wordB],
    -- \b\d+\s*piezas?\b
    rseq [RE.wordB, rplus rdigit, rstar rws, rlit "pieza", ropt (rch 's'), RE.wordB],
    -- \b\d+\s*frascos?\b
    rseq [RE.wordB, rplus rdigit, rstar rws, rlit "frasco", ropt (rch 's'), RE.wordB],
    -- \b\d+\s*botellas?\b
    rseq [RE.wordB, rplus rdigit, rstar rws, rlit "botella", ropt (rch 's'), RE.wordB],
    -- \b\d+\s*unidades?\b
    rseq [RE.wordB, rplus rdigit, rstar rws, rlit "unidade", ropt (rch 's'), RE.wordB],
    -- \bpack\s*de\s*\d+\b
    rseq [RE.wordB, rlit "pack", rstar rws, rlit "de", rstar rws, rplus rdigit, RE.wordB],
    -- \bpaquete\s*de\s*\d+\b
    rseq [RE.wordB, rlit "paquete", rstar rws, rlit "de", rstar rws, rplus rdigit, RE.wordB],
    -- \bx\s*\d+\b
    rseq [RE.wordB, rch 'x', rstar rws, rplus rdigit, RE.wordB],
    -- \(\d+\s*pzas?\)
    rseq [rch '(', rplus rdigit, rstar rws, rlit "pza", ropt (rch 's'), rch ')'],
    -- \(\d+\s*pack\)
    rseq [rch '(', rplus rdigit, rstar rws, rlit "pack", rch ')'],
    -- \(\d+\s*frascos?\)
    rseq [rch '(', rplus rdigit, rstar rws, rlit "frasco", ropt (rch 's'), rch ')'],
    -- \b12\s*frascos\b
    rseq [RE.wordB, rlit "12", rstar rws, rlit "frascos", RE.wordB],
    -- \b6\s*pzas\b
    rseq [RE.wordB, rch '6', rstar rws, rlit "pzas", RE.wordB],
    -- \b6\s*pack\b
    rseq [RE.wordB, rch '6', rstar rws, rlit "pack", RE.wordB] ]

/-- `is_multipack`: lowercase the title, return true iff some pattern of the
list matches somewhere in it. -/
def is_multipack (title : String) : Bool :=
  let title_lower := pyLower title
  multipack_patterns.any fun p => (RE.search p title_lower).isSome

/-! ### Python values obtained from `json.loads`, and Python exceptions -/

/-- The values `json.loads` can produce: `None`, booleans, numbers (ints and
floats, both modelled as rationals), strings, lists and dicts (insertion
ordered). -/
inductive JVal where
  | jnull
  | jbool (b : Bool)
  | jnum (q : ℚ)
  | jstr (s : String)
  | jarr (l : List JVal)
  | jobj (l : List (String × JVal))
  deriving Repr, BEq

/-- The Python exceptions the extraction code can actually raise. -/
inductive PyErr where
  | attributeError
  | typeError
  | keyError
  deriving Repr, DecidableEq

namespace JVal

/-- Python truthiness. -/
def truthy : JVal → Bool
  | jnull => false
  | jbool b => b
  | jnum q => q ≠ 0
  | jstr s => s ≠ ""
  | jarr l => ¬ l.isEmpty
  | jobj l => ¬ l.isEmpty

/-- Python `a or b`. -/
def pyOr (a b : JVal) : JVal := if a.truthy then a else b

def isDict : JVal → Bool
  | jobj _ => true
  | _ => false

def isList : JVal → Bool
  | jarr _ => true
  | _ => false

/-- Dict lookup honouring duplicate keys as Python `json.loads` builds the
dict (the last binding wins). -/
def objGet (l : List (String × JVal)) (k : String) : Option JVal :=
  (l.reverse.find? (fun p => p.1 = k)).map Prod.snd

/-- `d.get(k, default)`; raises `AttributeError` when `d` is not a dict. -/
def get (v : JVal) (k : String) (dflt : JVal) : Except PyErr JVal :=
  match v with
  | jobj l => .ok ((objGet l k).getD dflt)
  | _ => .error .attributeError

/-- `d.get(k)` with Python's implicit `None` default. -/
def getN (v : JVal) (k : String) : Except PyErr JVal := v.get k jnull

/-- `k in d` for a dict (callers guard with `isinstance(..., dict)`). -/
def hasKey (v : JVal) (k : String) : Bool :=
  match v with
  | jobj l => l.any (fun p => p.1 = k)
  | _ => false

/-- Python iteration `for x in v`: lists yield elements, strings their
characters, dicts their keys; other values raise `TypeError`. -/
def iterate : JVal → Except PyErr (List JVal)
  | jarr l => .ok l
  | jstr s => .ok (s.data.map fun c => jstr (String.mk [c]))
  | jobj l => .ok (l.map fun p => jstr p.1)
  | _ => .error .typeError

/-- Python `v[0]` on a truthy value: lists and strings index, dicts raise
`KeyError` (key `0` absent), other values `TypeError`. -/
def indexZero : JVal → Except PyErr JVal
  | jarr [] => .error .keyError
  | jarr (x :: _) => .ok x
  | jstr s =>
    match s.data with
    | [] => .error .keyError
    | c :: _ => .ok (jstr (String.mk [c]))
  | jobj _ => .error .keyError
  | _ => .error .typeError

/-- Python `float(v)`: numbers and booleans convert, strings parse (or raise
`ValueError`), everything else raises `TypeError`.  `none` covers exactly
the `(ValueError, TypeError)` pairs the source catches. -/
def pyFloat : JVal → Option ℚ
  | jnum q => some q
  | jbool b => some (if b then 1 else 0)
  | jstr s => pyFloatString s
  | _ => none

end JVal

/-! ### A JSON parser (`json.loads`)

Recursive-descent with fuel; `none` models `json.JSONDecodeError`.  The
non-standard `NaN`/`Infinity` literals CPython accepts are outside the
rational model and are rejected. -/

def jsonWs (cs : List Char) : List Char :=
  cs.dropWhile fun c => decide (c = ' ' ∨ c = '\t' ∨ c = '\n' ∨ c = '\x0d')

def hexVal (c : Char) : Option Nat :=
  if c.isDigit then some (c.toNat - '0'.toNat)
  else if 'a' ≤ c ∧ c ≤ 'f' then some (c.toNat - 'a'.toNat + 10)
  else if 'A' ≤ c ∧ c ≤ 'F' then some (c.toNat - 'A'.toNat + 10)
  else none

/-- Parse the body of a JSON string after the opening quote. -/
def parseJStr : Nat → List Char → Option (String × List Char)
  | 0, _ => none
  | _ + 1, [] => none
  | fuel + 1, c :: cs =>
    if c = dquote then some ("", cs)
    else if c = '\\' then
      match cs with
      | [] => none
      | e :: cs' =>
        let simple : Option Char :=
          if e = dquote then some dquote
          else if e = '\\' then some '\\'
          else if e = '/' then some '/'
          else if e = 'b' then some '\x08'
          else if e = 'f' then some '\x0c'
          else if e = 'n' then some '\n'
          else if e = 'r' then some '\x0d'
          else if e = 't' then some '\t'
          else none
        match simple with
        | some d =>
          (parseJStr fuel cs').map fun (s, rest) => (String.mk (d :: s.data), rest)
        | none =>
          if e = 'u' then
            match cs' with
            | h1 :: h2 :: h3 :: h4 :: cs'' =>
              match hexVal h1, hexVal h2, hexVal h3, hexVal h4 with
              | some a, some b, some c3, some d4 =>
                let n := ((a * 16 + b) * 16 + c3) * 16 + d4
                (parseJStr fuel cs'').map fun (s, rest) =>
                  (String.mk (Char.ofNat n :: s.data), rest)
              | _, _, _, _ => none
            | _ => none
          else none
    else (parseJStr fuel cs).map fun (s, rest) => (String.mk (c :: s.data), rest)

/-- Parse a JSON number. -/
def parseJNum (cs : List Char) : Option (ℚ × List Char) :=
  let (sign, cs1) :=
    match cs with
    | '-' :: rest => ((-1 : ℚ), rest)
    | _ => ((1 : ℚ), cs)
  let ip := cs1.takeWhile Char.isDigit
  if ip = [] then none
  else
    let cs2 := cs1.drop ip.length
    let (fp, cs3) :=
      match cs2 with
      | '.' :: rest =>
        let f := rest.takeWhile Char.isDigit
        (f, rest.drop f.length)
      | _ => ([], cs2)
    if cs2 ≠ [] ∧ cs2.head? = some '.' ∧ fp = [] then none
    else
      let base := sign * fracToRat ip fp
      match cs3 with
      | e :: rest =>
        if e = 'e' ∨ e = 'E' then
          let (esign, ds0) :=
            match rest with
            | '+' :: r => ((1 : Int), r)
            | '-' :: r => ((-1 : Int), r)
            | _ => ((1 : Int), rest)
          let ds := ds0.takeWhile Char.isDigit
          if ds = [] then none
          else some (base * (10 : ℚ) ^ (esign * (digitsToNat ds : Int)), ds0.drop ds.length)
        else some (base, cs3)
      | [] => some (base, cs3)

mutual

/-- Parse one JSON value (leading whitespace already skipped). -/
def parseJVal : Nat → List Char → Option (JVal × List Char)
  | 0, _ => none
  | fuel + 1, cs =>
    match cs with
    | [] => none
    | c :: rest =>
      if c = dquote then (parseJStr fuel rest).map fun (s, r) => (JVal.jstr s, r)
      else if c = braceL then
        match jsonWs rest with
        | c2 :: r2 =>
          if c2 = braceR then some (JVal.jobj [], r2)
          else parseJMembers fuel (c2 :: r2) []
        | [] => none
      else if c = '[' then
        match jsonWs rest with
        | ']' :: r2 => some (JVal.jarr [], r2)
        | r2 => parseJElems fuel r2 []
      else if c = 'n' then
        match rest with
        | 'u' :: 'l' :: 'l' :: r => some (JVal.jnull, r)
        | _ => none
      else if c = 't' then
        match rest with
        | 'r' :: 'u' :: 'e' :: r => some (JVal.jbool true, r)
        | _ => none
      else if c = 'f' then
        match rest with
        | 'a' :: 'l' :: 's' :: 'e' :: r => some (JVal.jbool false, r)
        | _ => none
      else (parseJNum cs).map fun (q, r) => (JVal.jnum q, r)

/-- Parse the members of a JSON object after the opening brace. -/
def parseJMembers : Nat → List Char → List (String × JVal) →
    Option (JVal × List Char)
  | 0, _, _ => none
  | fuel + 1, cs, acc =>
    match cs with
    | c :: rest =>
      if c = dquote then
        match parseJStr fuel rest with
        | none => none
        | some (key, r1) =>
          match jsonWs r1 with
          | ':' :: r2 =>
            match parseJVal fuel (jsonWs r2) with
            | none => none
            | some (v, r3) =>
              match jsonWs r3 with
              | ',' :: r4 => parseJMembers fuel (jsonWs r4) (acc ++ [(key, v)])
              | c2 :: r4 =>
                if c2 = braceR then some (JVal.jobj (acc ++ [(key, v)]), r4)
                else none
              | [] => none
          | _ => none
      else none
    | [] => none

/-- Parse the elements of a JSON array after the opening bracket. -/
def parseJElems : Nat → List Char → List JVal → Option (JVal × List Char)
  | 0, _, _ => none
  | fuel + 1, cs, acc =>
    match parseJVal fuel cs with
    | none => none
    | some (v, r1) =>
      match jsonWs r1 with
      | ',' :: r2 => parseJElems fuel (jsonWs r2) (acc ++ [v])
      | ']' :: r2 => some (JVal.jarr (acc ++ [v]), r2)
      | _ => none

end

/-- `json.loads`: parse a complete JSON document; trailing garbage is a
decode error. -/
def jsonLoads (s : String) : Option JVal :=
  match parseJVal (s.length * 2 + 8) (jsonWs s.data) with
  | some (v, rest) => if jsonWs rest = [] then some v else none
  | none => none

/-! ### The regex patterns of `extract_products_from_html` -/

/-- `["']` — quote class. -/
def rquote : RE := RE.cls fun c => c = dquote || c = squote

/-- A string literal in double quotes, `"lit"`. -/
def qlit (s : String) : RE := rseq [rch dquote, rlit s, rch dquote]

/-- `\s*:\s*`. -/
def colonWs : RE := rseq [rstar rws, rch ':', rstar rws]

/-- `[\d.]`. -/
def rdigitDot : RE := RE.cls fun c => c.isDigit || c = '.'

/-- `[\d,]`. -/
def rdigitComma : RE := RE.cls fun c => c.isDigit || c = ','

/-- `([\d,]+(?:\.\d{2})?)` without the group marker. -/
def priceNum : RE :=
  rseq [rplus rdigitComma, ropt (rseq [rch '.', RE.rep false 2 2 rdigit])]

/-- `<script[^>]*type=["']application/ld\+json["'][^>]*>([\s\S]*?)</script>`
(IGNORECASE). -/
def jsonld_pattern : RE :=
  rseq [rilit "<script", rstar (rnot '>'), rilit "type=", rquote,
    rilit "application/ld+json", rquote, rstar (rnot '>'), rch '>',
    RE.grp 1 (rstarL rany), rilit "</script>"]

/-- `__STATE__\s*=\s*(\{[\s\S]*?\});?\s*(?:</script>|window\.)`. -/
def state_pattern : RE :=
  rseq [rlit "__STATE__", rstar rws, rch '=', rstar rws,
    RE.grp 1 (rseq [rch braceL, rstarL rany, rch braceR]),
    ropt (rch ';'), rstar rws,
    RE.alt (rlit "</script>") (rlit "window.")]

/-- `"productName"\s*:\s*"([^"]+)"[^}]*"sellingPrice"\s*:\s*(\d+)`. -/
def vtex_render_pattern : RE :=
  rseq [qlit "productName", colonWs, rch dquote, RE.grp 1 (rplus (rnot dquote)),
    rch dquote, rstar (rnot braceR), qlit "sellingPrice", colonWs,
    RE.grp 2 (rplus rdigit)]

/-- The `productQuery` pattern:
`"product"\s*:\s*\{[^}]*"productName"\s*:\s*"([^"]+)"[^}]*\}[^}]*"priceRange"\s*:\s*\{[^}]*"sellingPrice"\s*:\s*\{[^}]*"lowPrice"\s*:\s*([\d.]+)`. -/
def vtex_query_pattern : RE :=
  rseq [qlit "product", colonWs, rch braceL, rstar (rnot braceR),
    qlit "productName", colonWs, rch dquote, RE.grp 1 (rplus (rnot dquote)),
    rch dquote, rstar (rnot braceR), rch braceR, rstar (rnot braceR),
    qlit "priceRange", colonWs, rch braceL, rstar (rnot braceR),
    qlit "sellingPrice", colonWs, rch braceL, rstar (rnot braceR),
    qlit "lowPrice", colonWs, RE.grp 2 (rplus rdigitDot)]

/-- `"productName"\s*:\s*"([^"]+)"[\s\S]{0,500}?"(?:Price|sellingPrice)"\s*:\s*([\d.]+)`. -/
def vtex_simple_pattern : RE :=
  rseq [qlit "productName", colonWs, rch dquote, RE.grp 1 (rplus (rnot dquote)),
    rch dquote, RE.rep true 0 500 rany, rch dquote,
    RE.alt (rlit "Price") (rlit "sellingPrice"), rch dquote, colonWs,
    RE.grp 2 (rplus rdigitDot)]

/-- `<script[^>]*id="__NEXT_DATA__"[^>]*>([\s\S]*?)</script>`. -/
def next_pattern : RE :=
  rseq [rlit "<script", rstar (rnot '>'), rlit "id=", rch dquote,
    rlit "__NEXT_DATA__", rch dquote, rstar (rnot '>'), rch '>',
    RE.grp 1 (rstarL rany), rlit "</script>"]

/-- The generic embedded-JSON pattern:
`"(?:name|title|productName)"\s*:\s*"([^"]{5,100})"[\s\S]{0,300}?"(?:price|Price|salePrice|sellingPrice|currentPrice)"\s*:\s*"?([\d.]+)"?`. -/
def generic_pattern : RE :=
  rseq [rch dquote,
    RE.alt (rlit "name") (RE.alt (rlit "title") (rlit "productName")),
    rch dquote, colonWs, rch dquote,
    RE.grp 1 (RE.rep false 5 100 (rnot dquote)), rch dquote,
    RE.rep true 0 300 rany, rch dquote,
    RE.alt (rlit "price") (RE.alt (rlit "Price") (RE.alt (rlit "salePrice")
      (RE.alt (rlit "sellingPrice") (rlit "currentPrice")))),
    rch dquote, colonWs, ropt (rch dquote), RE.grp 2 (rplus rdigitDot),
    ropt (rch dquote)]

/-- The four raw-markup fallback patterns (IGNORECASE):
`data-product-name="([^"]{5,100})"[\s\S]{0,500}?\$\s*([\d,]+(?:\.\d{2})?)`,
`aria-label="([^"]{5,100})"[\s\S]{0,300}?\$\s*([\d,]+(?:\.\d{2})?)`,
`<img[^>]*title="([^"]{5,80})"[^>]*>[\s\S]{0,400}?\$\s*([\d,]+(?:\.\d{2})?)`,
`<h[23][^>]*>([^<]{5,80})</h[23]>[\s\S]{0,300}?\$\s*([\d,]+(?:\.\d{2})?)`. -/
def html_product_patterns : List RE :=
  [ rseq [rilit "data-product-name=", rch dquote,
      RE.grp 1 (RE.rep false 5 100 (rnot dquote)), rch dquote,
      RE.rep true 0 500 rany, rch '$', rstar rws, RE.grp 2 priceNum],
    rseq [rilit "aria-label=", rch dquote,
      RE.grp 1 (RE.rep false 5 100 (rnot dquote)), rch dquote,
      RE.rep true 0 300 rany, rch '$', rstar rws, RE.grp 2 priceNum],
    rseq [rilit "<img", rstar (rnot '>'), rilit "title=", rch dquote,
      RE.grp 1 (RE.rep false 5 80 (rnot dquote)), rch dquote,
      rstar (rnot '>'), rch '>',
      RE.rep true 0 400 rany, rch '$', rstar rws, RE.grp 2 priceNum],
    rseq [rilit "<h", RE.cls (fun c => c = '2' || c = '3'), rstar (rnot '>'),
      rch '>', RE.grp 1 (RE.rep false 5 80 (rnot '<')),
      rilit "</h", RE.cls (fun c => c = '2' || c = '3'), rch '>',
      RE.rep true 0 300 rany, rch '$', rstar rws, RE.grp 2 priceNum] ]

/-! ### The extraction cascade: `extract_products_from_html` -/

/-- An extracted product: the dict `{'title': ..., 'price': ...}`.  Titles
taken from structured payloads keep their raw JSON value, as Python stores
whatever object sat in the `name` field. -/
structure Product where
  title : JVal
  price : ℚ
  deriving Repr, BEq

/-- Python `dict.items()`: unique keys in first-insertion order, latest
value for each. -/
def pyDictItems (l : List (String × JVal)) : List (String × JVal) :=
  (pyDedup (l.map Prod.fst)).map fun k => (k, (JVal.objGet l k).getD JVal.jnull)

/-- One item of a JSON-LD block (strategy 1).  Only `json.JSONDecodeError`
is caught in this branch, so attribute and type errors propagate. -/
def jsonLdItem (item : JVal) (acc : List Product) :
    Except PyErr (List Product) := do
  let item_type ← item.get "@type" (JVal.jstr "")
  let typeStr := match item_type with
    | JVal.jstr s => s
    | _ => ""
  if (match item_type with
      | JVal.jstr s => decide (s = "Product" ∨ s = "ItemList" ∨ s = "ProductGroup")
      | _ => false) then
    if typeStr = "ItemList" then
      let listVal ← item.get "itemListElement" (JVal.jarr [])
      let elems ← listVal.iterate
      elems.foldlM (fun acc elem => do
        if (match elem with
            | JVal.jobj l => ((JVal.objGet l "item").getD JVal.jnull).truthy
            | _ => false) then
          let prod ← elem.get "item" (JVal.jobj [])
          let name ← prod.get "name" (JVal.jstr "")
          let offers ← prod.get "offers" (JVal.jobj [])
          let price := if offers.isDict then
            (match offers.getN "price" with | .ok v => v | .error _ => JVal.jnull)
          else JVal.jnull
          if name.truthy ∧ price.truthy then
            match price.pyFloat with
            | some q => pure (acc ++ [⟨name, q⟩])
            | none => pure acc
          else pure acc
        else pure acc) acc
    else
      let name ← item.get "name" (JVal.jstr "")
      let offers0 ← item.get "offers" (JVal.jobj [])
      let offers := match offers0 with
        | JVal.jarr (x :: _) => x
        | v => v
      let price0 := if offers.isDict then
        (match offers.getN "price" with | .ok v => v | .error _ => JVal.jnull)
      else JVal.jnull
      let price := if ¬ price0.truthy ∧ offers.isDict then
        (match offers with
          | JVal.jobj l => JVal.pyOr ((JVal.objGet l "lowPrice").getD JVal.jnull)
              ((JVal.objGet l "highPrice").getD JVal.jnull)
          | _ => JVal.jnull)
      else price0
      if name.truthy ∧ price.truthy then
        match price.pyFloat with
        | some q => pure (acc ++ [⟨name, q⟩])
        | none => pure acc
      else pure acc
  else pure acc

/-- Strategy 1: JSON-LD blocks. -/
def jsonLdProducts (html : String) : Except PyErr (List Product) :=
  (RE.findAll1 jsonld_pattern html).foldlM
    (fun acc block =>
      match jsonLoads block with
      | none => pure acc
      | some data =>
        let items := match data with
          | JVal.jarr l => l
          | v => [v]
        items.foldlM (fun acc item => jsonLdItem item acc) acc)
    []

/-- One value of the VTEX `__STATE__` object (strategy 2a); returns the
product appended for this value, if any. -/
def vtexStateValue (value : JVal) : Except PyErr (Option Product) := do
  match value with
  | JVal.jobj l =>
    if l.any (fun p => p.1 = "productName") ∨ l.any (fun p => p.1 = "name") then
      let name := JVal.pyOr ((JVal.objGet l "productName").getD JVal.jnull)
        ((JVal.objGet l "name").getD (JVal.jstr ""))
      let price0 := JVal.pyOr ((JVal.objGet l "price").getD JVal.jnull)
        (JVal.pyOr ((JVal.objGet l "sellingPrice").getD JVal.jnull)
          ((JVal.objGet l "Price").getD JVal.jnull))
      let price ← (do
        if ¬ price0.truthy then
          let items := (JVal.objGet l "items").getD (JVal.jarr [])
          if items.truthy then
            let i0 ← items.indexZero
            if i0.isDict then
              let sellers ← i0.get "sellers" (JVal.jarr [])
              if sellers.truthy then
                let s0 ← sellers.indexZero
                if s0.isDict then
                  let offer ← s0.get "commertialOffer" (JVal.jobj [])
                  let a ← offer.getN "Price"
                  if a.truthy then pure a
                  else offer.getN "sellingPrice"
                else pure price0
              else pure price0
            else pure price0
          else pure price0
        else pure price0)
      if name.truthy ∧ price.truthy then
        match price.pyFloat with
        | some q =>
          let q := if q > 10000 then q / 100 else q
          if 5 ≤ q ∧ q ≤ 50000 then pure (some ⟨name, q⟩) else pure none
        | none => pure none
      else pure none
    else pure none
  | _ => pure none

/-- Strategy 2a: the VTEX `__STATE__` object.  The whole branch sits in a
`try` catching every exception, so an error keeps the products appended so
far and stops the scan. -/
def vtexStateGo : List (String × JVal) → List Product → List Product
  | [], acc => acc
  | (_, v) :: rest, acc =>
    match vtexStateValue v with
    | .error _ => acc
    | .ok none => vtexStateGo rest acc
    | .ok (some p) => vtexStateGo rest (acc ++ [p])

def vtexStateProducts (html : String) : List Product :=
  match RE.search1 state_pattern html with
  | none => []
  | some stateStr =>
    match jsonLoads (stateStr.replace "undefined" "null") with
    | none => []
    | some (JVal.jobj kvs) => vtexStateGo (pyDictItems kvs) []
    | some _ => []

/-- Strategy 2b: the VTEX render-server pattern, range 5–50,000 with
minor-unit correction above 10,000. -/
def vtexRenderProducts (html : String) : List Product :=
  (RE.findAll2 vtex_render_pattern html).foldl
    (fun acc (p : String × String) =>
      match pyFloatString p.2 with
      | some q =>
        let q := if q > 10000 then q / 100 else q
        if 5 ≤ q ∧ q ≤ 50000 then acc ++ [⟨JVal.jstr p.1, q⟩] else acc
      | none => acc)
    []

/-- Strategy 2c: the VTEX `productQuery` pattern, range 5–5,000. -/
def vtexQueryProducts (html : String) : List Product :=
  (RE.findAll2 vtex_query_pattern html).foldl
    (fun acc (p : String × String) =>
      match pyFloatString p.2 with
      | some q =>
        if 5 ≤ q ∧ q ≤ 5000 then acc ++ [⟨JVal.jstr p.1, q⟩] else acc
      | none => acc)
    []

/-- Strategy 2d: the simple VTEX pattern, minor-unit correction above 1,000,
range 5–5,000. -/
def vtexSimpleProducts (html : String) : List Product :=
  (RE.findAll2 vtex_simple_pattern html).foldl
    (fun acc (p : String × String) =>
      match pyFloatString p.2 with
      | some q =>
        let q := if q > 1000 then q / 100 else q
        if 5 ≤ q ∧ q ≤ 5000 then acc ++ [⟨JVal.jstr p.1, q⟩] else acc
      | none => acc)
    []

/-- One candidate of the `__NEXT_DATA__` search results (strategy 3). -/
def nextDataProd (prod : JVal) : Except PyErr (Option Product) := do
  match prod with
  | JVal.jobj l =>
    let name := JVal.pyOr ((JVal.objGet l "name").getD JVal.jnull)
      (JVal.pyOr ((JVal.objGet l "title").getD JVal.jnull)
        ((JVal.objGet l "productName").getD (JVal.jstr "")))
    let price0 := JVal.pyOr ((JVal.objGet l "price").getD JVal.jnull)
      (JVal.pyOr ((JVal.objGet l "salePrice").getD JVal.jnull)
        ((JVal.objGet l "sellingPrice").getD JVal.jnull))
    let price ← (do
      if ¬ price0.truthy ∧ l.any (fun p => p.1 = "priceInfo") then
        ((JVal.objGet l "priceInfo").getD JVal.jnull).getN "currentPrice"
      else pure price0)
    if name.truthy ∧ price.truthy then
      match price.pyFloat with
      | some q => pure (some ⟨name, q⟩)
      | none => pure none
    else pure none
  | _ => pure none

def nextDataGo : List JVal → List Product → List Product
  | [], acc => acc
  | p :: rest, acc =>
    match nextDataProd p with
    | .error _ => acc
    | .ok none => nextDataGo rest acc
    | .ok (some pr) => nextDataGo rest (acc ++ [pr])

/-- Strategy 3: the `__NEXT_DATA__` island.  The branch catches every
exception; an error keeps the products appended so far. -/
def nextDataProducts (html : String) : List Product :=
  match RE.search1 next_pattern html with
  | none => []
  | some txt =>
    match jsonLoads txt with
    | none => []
    | some nd =>
      let nav : Except PyErr (List JVal) := do
        let props0 ← nd.get "props" (JVal.jobj [])
        let props ← props0.get "pageProps" (JVal.jobj [])
        let inner ← props.get "items" (JVal.jarr [])
        let mid ← props.get "products" inner
        let sr0 ← props.get "searchResults" mid
        let sr ← (do
          match sr0 with
          | JVal.jobj l =>
            let d ← sr0.get "items" (JVal.jarr [])
            pure ((JVal.objGet l "products").getD d)
          | v => pure v)
        match sr with
        | JVal.jarr l => pure l
        | _ => pure []
      match nav with
      | .error _ => []
      | .ok prods => nextDataGo prods []

/-- Strategy 4: the generic embedded-JSON pattern, minor-unit correction
above 10,000, range 5–50,000. -/
def genericProducts (html : String) : List Product :=
  (RE.findAll2 generic_pattern html).foldl
    (fun acc (p : String × String) =>
      match pyFloatString p.2 with
      | some q =>
        let q := if q > 10000 then q / 100 else q
        if 5 ≤ q ∧ q ≤ 50000 then acc ++ [⟨JVal.jstr p.1, q⟩] else acc
      | none => acc)
    []

/-- Strategy 5: raw-markup adjacency patterns, range 5–50,000; commas are
stripped from the price and the title is stripped of surrounding
whitespace. -/
def htmlFallbackProducts (html : String) : List Product :=
  html_product_patterns.foldl
    (fun acc re =>
      (RE.findAll2 re html).foldl
        (fun acc (p : String × String) =>
          match pyFloatString (String.mk (p.2.data.filter (· ≠ ','))) with
          | some q =>
            if 5 ≤ q ∧ q ≤ 50000 then acc ++ [⟨JVal.jstr p.1.trim, q⟩] else acc
          | none => acc)
        acc)
    []

/-- `extract_products_from_html`: the strategies in cascade; the first one
producing at least one product wins.  Only strategy 1 can raise. -/
def extract_products_from_html (html : String) : Except PyErr (List Product) :=
  match jsonLdProducts html with
  | .error e => .error e
  | .ok p1 =>
    if ¬ p1.isEmpty then .ok p1 else
    let p2a := vtexStateProducts html
    if ¬ p2a.isEmpty then .ok p2a else
    let p2b := vtexRenderProducts html
    if ¬ p2b.isEmpty then .ok p2b else
    let p2c := vtexQueryProducts html
    if ¬ p2c.isEmpty then .ok p2c else
    let p2d := vtexSimpleProducts html
    if ¬ p2d.isEmpty then .ok p2d else
    let p3 := nextDataProducts html
    if ¬ p3.isEmpty then .ok p3 else
    let p4 := genericProducts html
    if ¬ p4.isEmpty then .ok p4 else
    .ok (htmlFallbackProducts html)

/-! ### The consolidator: `consolidate_prices` -/

/-- The value of the `price` field of an incoming offer dict: absent/`None`,
a number, or a string. -/
inductive PVal where
  | pnone
  | pnum (q : ℚ)
  | pstr (s : String)
  deriving DecidableEq, Repr

/-- Python truthiness of a price field (`if not price: continue`). -/
def PVal.truthy : PVal → Bool
  | .pnone => false
  | .pnum q => q ≠ 0
  | .pstr s => s ≠ ""

/-- The price conversion of `consolidate_prices`: strings are stripped to
digits and dots by `re.sub(r'[^\d.]', '', price)` and passed to `float`;
numbers pass through.  `none` is the bare `except: continue`. -/
def PVal.parse : PVal → Option ℚ
  | .pnone => none
  | .pnum q => some q
  | .pstr s => pyFloatDigitsDots (String.mk (s.data.filter fun c => c.isDigit || c = '.'))

/-- An element of the `all_prices` list handed to `consolidate_prices`:
the fields the function reads, with `.get` defaults made explicit. -/
structure Offer where
  store : Option String
  price : PVal
  estimated : Bool
  url : String
  source_api : String
  deriving DecidableEq, Repr

/-- A consolidated per-store entry. -/
structure Entry where
  store : String
  price : ℚ
  url : String
  source_api : String
  estimated : Bool
  deriving DecidableEq, Repr

/-- The store-name normalization chain of `consolidate_prices`. -/
def normalize_store (store : String) : String :=
  let store_lower := pyLower store
  if containsSub store_lower "amazon" then "Amazon Mexico"
  else if containsSub store_lower "walmart" then "Walmart Mexico"
  else if containsSub store_lower "mercado" then "Mercado Libre"
  else if containsSub store_lower "soriana" then "Soriana"
  else if containsSub store_lower "chedraui" then "Chedraui"
  else if containsSub store_lower "guadalajara" then "Farmacias Guadalajara"
  else if containsSub store_lower "ahorro" then "Farmacias del Ahorro"
  else if containsSub store_lower "benavides" then "Farmacias Benavides"
  else if containsSub store_lower "sam" then "Sam\x27s Club"
  else if containsSub store_lower "costco" then "Costco"
  else if containsSub store_lower "heb" then "HEB"
  else if containsSub store_lower "liverpool" then "Liverpool"
  else if containsSub store_lower "coppel" then "Coppel"
  else if containsSub store_lower "lacomer" || containsSub store_lower "la comer" then "La Comer"
  else store

/-- Lookup in the insertion-ordered dict (`stores.get(store_key)`). -/
def lookupA : List (String × Entry) → String → Option Entry
  | [], _ => none
  | p :: rest, k => if p.1 = k then some p.2 else lookupA rest k

/-- In-place update of an existing key, preserving its position, as Python
dict assignment does. -/
def updateA (stores : List (String × Entry)) (k : String) (e : Entry) :
    List (String × Entry) :=
  stores.map fun p => if p.1 = k then (k, e) else p

/-- Processing of one offer by `consolidate_prices`. -/
def consolidStep (stores : List (String × Entry)) (item : Offer) :
    List (String × Entry) :=
  let store := item.store.getD "Desconocido"
  let price := item.price
  let is_estimated := item.estimated
  if ¬ price.truthy then stores
  else
    let store_key := normalize_store store
    match price.parse with
    | none => stores
    | some p =>
      match lookupA stores store_key with
      | none =>
        stores ++ [(store_key, ⟨store_key, p, item.url, item.source_api, is_estimated⟩)]
      | some existing =>
        if existing.estimated ∧ ¬ is_estimated then
          updateA stores store_key ⟨store_key, p, item.url, item.source_api, false⟩
        else if existing.estimated = is_estimated ∧ p < existing.price then
          updateA stores store_key ⟨store_key, p, item.url, item.source_api, is_estimated⟩
        else stores

/-- `consolidate_prices`: fold the offers into the per-store dict. -/
def consolidate_prices (all_prices : List Offer) : List (String × Entry) :=
  all_prices.foldl consolidStep []

/-! ### Response assembly in `api_price_check` -/

/-- Ordering of the final sort, `key=lambda x: x['price']`. -/
def byPrice (a b : Entry) : Prop := a.price ≤ b.price

instance : DecidableRel byPrice := fun a b => inferInstanceAs (Decidable (a.price ≤ b.price))

instance : IsTotal Entry byPrice := ⟨fun a b => le_total a.price b.price⟩

instance : IsTrans Entry byPrice := ⟨fun _ _ _ h1 h2 => le_trans h1 h2⟩

/-- The `result` object the endpoint serializes (product echo and timestamp
omitted: they do not depend on the offers).  Python's `sorted` is a stable
sort by the price key; a stable insertion sort produces the identical
list. -/
structure ApiResult where
  stores : List Entry
  lowest : Option Entry
  count : Nat
  deriving DecidableEq, Repr

/-- The response envelope: `jsonify({"success": True, "result": result})`. -/
structure ApiResponse where
  success : Bool
  result : ApiResult
  deriving DecidableEq, Repr

/-- Steps 5–6 of `api_price_check`: consolidate, sort ascending by price,
take the head as `lowest` and the length as `count`. -/
def api_price_check_result (all_prices : List Offer) : ApiResponse :=
  let consolidated := consolidate_prices all_prices
  let stores_list := List.insertionSort byPrice (consolidated.map Prod.snd)
  ⟨true, ⟨stores_list, stores_list.head?, stores_list.length⟩⟩

/-! ### Derived views of the consolidator, used to state and prove its
properties -/

/-- An offer as `consolidate_prices` effectively sees it once the falsy
check, the store normalization and the price conversion have happened. -/
structure EffOffer where
  key : String
  price : ℚ
  estimated : Bool
  url : String
  source_api : String
  deriving DecidableEq, Repr

/-- The effective content of one offer: `none` exactly when the offer is
skipped (falsy or unparseable price). -/
def effOffer (o : Offer) : Option EffOffer :=
  if o.price.truthy then
    match o.price.parse with
    | some p => some ⟨normalize_store (o.store.getD "Desconocido"), p,
        o.estimated, o.url, o.source_api⟩
    | none => none
  else none

/-- The effective offers of a list that land on canonical store `k`. -/
def effOffers (l : List Offer) (k : String) : List EffOffer :=
  (l.filterMap effOffer).filter fun it => it.key = k

/-- Price/provenance pairs of the effective offers for a store. -/
def itemsPE (l : List Offer) (k : String) : List (ℚ × Bool) :=
  (effOffers l k).map fun it => (it.price, it.estimated)

/-- Prices of the verified members of a price/provenance list. -/
def verPrices (l : List (ℚ × Bool)) : List ℚ :=
  (l.filter fun x => ¬ x.2).map Prod.fst

/-- Prices of the estimated members of a price/provenance list. -/
def estPrices (l : List (ℚ × Bool)) : List ℚ :=
  (l.filter fun x => x.2).map Prod.fst

/-- Verified (scraped) prices for store `k`. -/
def verifiedPrices (l : List Offer) (k : String) : List ℚ :=
  verPrices (itemsPE l k)

/-- Estimated prices for store `k`. -/
def estimatedPrices (l : List Offer) (k : String) : List ℚ :=
  estPrices (itemsPE l k)

/-- All parsed prices for store `k`. -/
def parsedPricesFor (l : List Offer) (k : String) : List ℚ :=
  (effOffers l k).map EffOffer.price

/-- The per-key decision of `consolidate_prices`, applied to the current
entry (if any) and one effective offer. -/
def combine1 (cur : Option Entry) (it : EffOffer) : Option Entry :=
  match cur with
  | none => some ⟨it.key, it.price, it.url, it.source_api, it.estimated⟩
  | some existing =>
    if existing.estimated ∧ ¬ it.estimated then
      some ⟨it.key, it.price, it.url, it.source_api, false⟩
    else if existing.estimated = it.estimated ∧ it.price < existing.price then
      some ⟨it.key, it.price, it.url, it.source_api, it.estimated⟩
    else some existing

/-- Minimum of a rational list. -/
def minQ : List ℚ → Option ℚ
  | [] => none
  | x :: xs =>
    some (match minQ xs with
      | none => x
      | some m => min x m)

/-- The price/provenance pair the consolidation policy keeps for a store,
computed from the bag of candidates: the cheapest verified price when a
verified offer exists, otherwise the cheapest estimated price. -/
def bestPE (l : List (ℚ × Bool)) : Option (ℚ × Bool) :=
  match minQ (verPrices l) with
  | some m => some (m, false)
  | none =>
    match minQ (estPrices l) with
    | some m => some (m, true)
    | none => none

/-- Price/provenance view of an optional entry. -/
def peOpt (cur : Option Entry) : Option (ℚ × Bool) :=
  cur.map fun e => (e.price, e.estimated)

/-- An optional entry as a (zero- or one-element) candidate list. -/
def curPE (cur : Option Entry) : List (ℚ × Bool) :=
  match cur with
  | none => []
  | some e => [(e.price, e.estimated)]

/-! ### Concrete inputs used to instantiate the properties -/

/-- A verified $30 offer for Soriana. -/
def offerVer30 : Offer := ⟨some "Soriana", .pnum 30, false, "u-ver", "api-a"⟩

/-- An estimated $10 offer reaching the same canonical store. -/
def offerEst10 : Offer := ⟨some "soriana super", .pnum 10, true, "u-est", "api-b"⟩

/-- Two same-class, same-price offers that differ only in their URL. -/
def offerTieA : Offer := ⟨some "Walmart", .pnum 25, false, "url-one", "api-a"⟩

def offerTieB : Offer := ⟨some "Walmart", .pnum 25, false, "url-two", "api-b"⟩

/-- A verified offer with a price far outside the plausibility range. -/
def offerHuge : Offer := ⟨some "Tienda Random", .pnum 1000000, false, "u", "a"⟩

/-- An offer whose price field is numerically zero. -/
def offerZero : Offer := ⟨some "Walmart", .pnum 0, false, "u0", "a0"⟩

/-- A JSON-LD page whose product price (1 currency unit) violates the
5–50,000 plausibility bound. -/
def jsonldCheapHtml : String :=
  "<script type=\"application/ld+json\">\x7b\"@type\": \"Product\", " ++
  "\"name\": \"Cheap Thing\", \"offers\": \x7b\"price\": 1\x7d\x7d</script>"

/-- A page whose JSON-LD block parses to `null`: `item.get('@type', ...)`
then raises `AttributeError`, which the branch does not catch. -/
def jsonldNullHtml : String :=
  "<script type=\"application/ld+json\">null</script>"

/-- A page matched by the VTEX render-server strategy, price 250. -/
def vtexRenderHtml : String :=
  "\"productName\": \"Suero oral sabor natural\", \"sellingPrice\": 250"

/-- The product the VTEX render-server strategy extracts from
`vtexRenderHtml`. -/
def vtexRenderProd : Product := ⟨JVal.jstr "Suero oral sabor natural", 250⟩

/-! ### Helper lemmas -/

theorem minQ_eq_none_iff (l : List ℚ) : minQ l = none ↔ l = [] := by
  cases l <;> simp [minQ]

theorem minQ_mem {l : List ℚ} {m : ℚ} (h : minQ l = some m) : m ∈ l := by
  induction l generalizing m with
  | nil => simp [minQ] at h
  | cons x xs ih =>
    simp only [minQ] at h
    cases hx : minQ xs with
    | none => rw [hx] at h; simp at h; simp [h]
    | some m' =>
      rw [hx] at h
      simp only [Option.some.injEq] at h
      rcases min_choice x m' with hmin | hmin
      · rw [hmin] at h; simp [h]
      · rw [hmin] at h; exact List.mem_cons_of_mem _ (ih (h ▸ hx))

theorem minQ_le {l : List ℚ} {m : ℚ} (h : minQ l = some m) :
    ∀ x ∈ l, m ≤ x := by
  induction l generalizing m with
  | nil => simp
  | cons x xs ih =>
    simp only [minQ] at h
    cases hx : minQ xs with
    | none =>
      rw [hx] at h
      simp only [Option.some.injEq] at h
      rw [minQ_eq_none_iff] at hx
      subst hx
      simp [← h]
    | some m' =>
      rw [hx] at h
      simp only [Option.some.injEq] at h
      intro y hy
      rcases List.mem_cons.1 hy with rfl | hy'
      · rw [← h]; exact min_le_left _ _
      · exact le_trans (by rw [← h]; exact min_le_right x m') (ih hx y hy')

/-- Swapping the two head elements leaves the minimum unchanged. -/
theorem minQ_swap (a b : ℚ) (l : List ℚ) :
    minQ (a :: b :: l) = minQ (b :: a :: l) := by
  simp only [minQ]
  cases minQ l <;> simp [min_left_comm, min_comm a b]

/-- A dominated second element can be dropped. -/
theorem minQ_absorb {a b : ℚ} (hab : a ≤ b) (l : List ℚ) :
    minQ (a :: b :: l) = minQ (a :: l) := by
  simp only [minQ]
  cases minQ l with
  | none => simp [min_eq_left hab]
  | some m => simp [← min_assoc, min_eq_left hab]

theorem minQ_perm {l l' : List ℚ} (h : l.Perm l') : minQ l = minQ l' := by
  cases hl : minQ l with
  | none =>
    rw [minQ_eq_none_iff] at hl
    subst hl
    rw [← h.nil_eq]
    rfl
  | some m =>
    cases hl' : minQ l' with
    | none =>
      rw [minQ_eq_none_iff] at hl'
      subst hl'
      have := h.symm.nil_eq
      subst this
      simp [minQ] at hl
    | some m' =>
      have h1 : m ≤ m' := minQ_le hl _ (h.symm.mem_iff.1 (minQ_mem hl'))
      have h2 : m' ≤ m := minQ_le hl' _ (h.mem_iff.1 (minQ_mem hl))
      rw [le_antisymm h1 h2]

/-! Association-list lemmas for the consolidation dict. -/

theorem lookupA_append_one (s : List (String × Entry)) (k k' : String) (e : Entry) :
    lookupA (s ++ [(k', e)]) k =
      match lookupA s k with
      | some x => some x
      | none => if k' = k then some e else none := by
  induction s with
  | nil => simp [lookupA]
  | cons p rest ih =>
    by_cases hp : p.1 = k
    · simp [lookupA, hp]
    · simpa [lookupA, hp] using ih

theorem lookupA_updateA_self {s : List (String × Entry)} {k : String} {ex : Entry}
    (h : lookupA s k = some ex) (e : Entry) :
    lookupA (updateA s k e) k = some e := by
  induction s with
  | nil => simp [lookupA] at h
  | cons p rest ih =>
    by_cases hp : p.1 = k
    · simp [lookupA, updateA, hp]
    · simp only [lookupA, hp, if_neg, if_false] at h
      have hrec := ih h
      simpa [lookupA, updateA, hp] using hrec

theorem lookupA_updateA_ne {k k' : String} (hne : k' ≠ k)
    (s : List (String × Entry)) (e : Entry) :
    lookupA (updateA s k' e) k = lookupA s k := by
  induction s with
  | nil => rfl
  | cons p rest ih =>
    by_cases hp : p.1 = k'
    · simpa [lookupA, updateA, hp, hne] using ih
    · by_cases hk : p.1 = k
      · have hkk : k ≠ k' := fun hh => hne hh.symm
        simp [lookupA, updateA, hp, hk, hkk]
      · simpa [lookupA, updateA, hp, hk] using ih

/-! Localization: the per-key view of the fold. -/

theorem consolidStep_skip {o : Offer} (h : effOffer o = none)
    (s : List (String × Entry)) : consolidStep s o = s := by
  by_cases ht : o.price.truthy
  · cases hp : o.price.parse with
    | none => simp [consolidStep, ht, hp]
    | some p => simp [effOffer, ht, hp] at h
  · simp [consolidStep, ht]

theorem consolidStep_eff {o : Offer} {it : EffOffer} (h : effOffer o = some it)
    (s : List (String × Entry)) :
    consolidStep s o =
      match lookupA s it.key with
      | none =>
        s ++ [(it.key, ⟨it.key, it.price, it.url, it.source_api, it.estimated⟩)]
      | some existing =>
        if existing.estimated ∧ ¬ it.estimated then
          updateA s it.key ⟨it.key, it.price, it.url, it.source_api, false⟩
        else if existing.estimated = it.estimated ∧ it.price < existing.price then
          updateA s it.key ⟨it.key, it.price, it.url, it.source_api, it.estimated⟩
        else s := by
  by_cases ht : o.price.truthy
  · cases hp : o.price.parse with
    | none => simp [effOffer, ht, hp] at h
    | some p =>
      simp only [effOffer, ht, hp, if_true, Option.some.injEq] at h
      subst h
      simp [consolidStep, ht, hp]
  · simp [effOffer, ht] at h

theorem lookupA_consolidStep (s : List (String × Entry)) (o : Offer) (k : String) :
    lookupA (consolidStep s o) k =
      match effOffer o with
      | none => lookupA s k
      | some it => if it.key = k then combine1 (lookupA s k) it else lookupA s k := by
  cases he : effOffer o with
  | none => rw [consolidStep_skip he]
  | some it =>
    rw [consolidStep_eff he]
    by_cases hk : it.key = k
    · subst hk
      cases hl : lookupA s it.key with
      | none =>
        simp only [hl, lookupA_append_one, combine1, if_pos rfl, if_true]
      | some ex =>
        by_cases h1 : ex.estimated = true ∧ it.estimated = false
        · have h1' : ex.estimated ∧ ¬ it.estimated := by
            simp [h1.1, h1.2]
          simp only [hl, if_pos h1', combine1, lookupA_updateA_self hl, if_true]
        · have h1' : ¬ (ex.estimated ∧ ¬ it.estimated) := by
            intro hc
            exact h1 ⟨by simpa using hc.1, by simpa using hc.2⟩
          by_cases h2 : ex.estimated = it.estimated ∧ it.price < ex.price
          · simp only [hl, if_neg h1', if_pos h2, combine1,
              lookupA_updateA_self hl, if_true]
          · simp only [hl, if_neg h1', if_neg h2, combine1, if_true]
    · cases hl : lookupA s it.key with
      | none =>
        rw [lookupA_append_one]
        simp only [if_neg hk]
        cases lookupA s k <;> simp
      | some ex =>
        by_cases h1 : ex.estimated ∧ ¬ it.estimated
        · simp only [hl, if_pos h1, lookupA_updateA_ne hk, if_neg hk]
        · by_cases h2 : ex.estimated = it.estimated ∧ it.price < ex.price
          · simp only [hl, if_neg h1, if_pos h2, lookupA_updateA_ne hk, if_neg hk]
          · simp only [hl, if_neg h1, if_neg h2, if_neg hk]

theorem effOffers_cons (o : Offer) (t : List Offer) (k : String) :
    effOffers (o :: t) k =
      match effOffer o with
      | none => effOffers t k
      | some it => if it.key = k then it :: effOffers t k else effOffers t k := by
  unfold effOffers
  cases h : effOffer o with
  | none => simp [List.filterMap_cons, h]
  | some it =>
    by_cases hk : it.key = k <;> simp [List.filterMap_cons, h, hk, List.filter_cons]

theorem lookupA_foldl_consolid (l : List Offer) :
    ∀ (s : List (String × Entry)) (k : String),
      lookupA (List.foldl consolidStep s l) k =
        List.foldl combine1 (lookupA s k) (effOffers l k) := by
  induction l with
  | nil => intro s k; rfl
  | cons o t ih =>
    intro s k
    rw [List.foldl_cons, ih (consolidStep s o) k, lookupA_consolidStep,
      effOffers_cons]
    cases he : effOffer o with
    | none => rfl
    | some it =>
      by_cases hk : it.key = k
      · simp [hk]
      · simp [hk]

/-! The per-key fold computes the best (cheapest within the winning
provenance class) candidate. -/

theorem verPrices_cons (p : ℚ) (b : Bool) (r : List (ℚ × Bool)) :
    verPrices ((p, b) :: r) = if b then verPrices r else p :: verPrices r := by
  cases b <;> simp [verPrices, List.filter_cons]

theorem estPrices_cons (p : ℚ) (b : Bool) (r : List (ℚ × Bool)) :
    estPrices ((p, b) :: r) = if b then p :: estPrices r else estPrices r := by
  cases b <;> simp [estPrices, List.filter_cons]

theorem bestPE_congr {l1 l2 : List (ℚ × Bool)}
    (hv : minQ (verPrices l1) = minQ (verPrices l2))
    (he : minQ (estPrices l1) = minQ (estPrices l2)) : bestPE l1 = bestPE l2 := by
  unfold bestPE
  rw [hv, he]

theorem bestPE_ver_only {l1 l2 : List (ℚ × Bool)}
    (hv : verPrices l1 = verPrices l2) (hne : verPrices l1 ≠ []) :
    bestPE l1 = bestPE l2 := by
  unfold bestPE
  rw [hv]
  cases hm : minQ (verPrices l2) with
  | none =>
    rw [minQ_eq_none_iff] at hm
    rw [hv] at hne
    exact absurd hm hne
  | some m => rfl

theorem combine1_bestPE (cur : Option Entry) (it : EffOffer) (r : List (ℚ × Bool)) :
    bestPE (curPE (combine1 cur it) ++ r) =
      bestPE (curPE cur ++ (it.price, it.estimated) :: r) := by
  cases cur with
  | none => rfl
  | some ex =>
    cases hex : ex.estimated <;> cases hit : it.estimated
    · -- both verified: lower price wins
      by_cases hlt : it.price < ex.price
      · have hcond : ¬ (ex.estimated ∧ ¬ it.estimated) := by simp [hex, hit]
        have hcond2 : ex.estimated = it.estimated ∧ it.price < ex.price := by
          simp [hex, hit, hlt]
        simp only [combine1, if_neg hcond, if_pos hcond2, curPE, List.cons_append,
          List.nil_append]
        refine bestPE_congr ?_ ?_
        · simp only [verPrices_cons, hex, hit, if_false, Bool.false_eq_true]
          rw [minQ_swap, minQ_absorb (le_of_lt hlt)]
        · simp [estPrices_cons, hex, hit]
      · have hcond : ¬ (ex.estimated ∧ ¬ it.estimated) := by simp [hex, hit]
        have hcond2 : ¬ (ex.estimated = it.estimated ∧ it.price < ex.price) := by
          simp [hex, hit, hlt]
        simp only [combine1, if_neg hcond, if_neg hcond2, curPE, List.cons_append,
          List.nil_append]
        refine bestPE_congr ?_ ?_
        · simp only [verPrices_cons, hex, hit, if_false, Bool.false_eq_true]
          rw [minQ_absorb (le_of_not_lt hlt)]
        · simp [estPrices_cons, hex, hit]
    · -- verified entry, estimated offer: keep the entry
      have hcond : ¬ (ex.estimated ∧ ¬ it.estimated) := by simp [hex]
      have hcond2 : ¬ (ex.estimated = it.estimated ∧ it.price < ex.price) := by
        simp [hex, hit]
      simp only [combine1, if_neg hcond, if_neg hcond2, curPE, List.cons_append,
        List.nil_append]
      refine bestPE_ver_only ?_ ?_
      · simp [verPrices_cons, hex, hit]
      · simp [verPrices_cons, hex]
    · -- estimated entry, verified offer: the verified offer displaces it
      have hcond : ex.estimated ∧ ¬ it.estimated := by simp [hex, hit]
      simp only [combine1, if_pos hcond, curPE, List.cons_append, List.nil_append]
      refine bestPE_ver_only ?_ ?_
      · simp [verPrices_cons, hex, hit]
      · simp [verPrices_cons, hit]
    · -- both estimated: lower price wins
      by_cases hlt : it.price < ex.price
      · have hcond : ¬ (ex.estimated ∧ ¬ it.estimated) := by simp [hit]
        have hcond2 : ex.estimated = it.estimated ∧ it.price < ex.price := by
          simp [hex, hit, hlt]
        simp only [combine1, if_neg hcond, if_pos hcond2, curPE, List.cons_append,
          List.nil_append]
        refine bestPE_congr ?_ ?_
        · simp [verPrices_cons, hex, hit]
        · simp only [estPrices_cons, hex, hit, if_true]
          rw [minQ_swap, minQ_absorb (le_of_lt hlt)]
      · have hcond : ¬ (ex.estimated ∧ ¬ it.estimated) := by simp [hit]
        have hcond2 : ¬ (ex.estimated = it.estimated ∧ it.price < ex.price) := by
          simp [hex, hit, hlt]
        simp only [combine1, if_neg hcond, if_neg hcond2, curPE, List.cons_append,
          List.nil_append]
        refine bestPE_congr ?_ ?_
        · simp [verPrices_cons, hex, hit]
        · simp only [estPrices_cons, hex, hit, if_true]
          rw [minQ_absorb (le_of_not_lt hlt)]

theorem foldl_combine1_pe (items : List EffOffer) :
    ∀ cur : Option Entry,
      peOpt (List.foldl combine1 cur items) =
        bestPE (curPE cur ++ items.map fun it => (it.price, it.estimated)) := by
  induction items with
  | nil =>
    intro cur
    cases cur with
    | none => rfl
    | some e =>
      cases hb : e.estimated <;>
        simp [peOpt, curPE, bestPE, verPrices, estPrices, minQ, hb,
          List.filter_cons]
  | cons it rest ih =>
    intro cur
    rw [List.foldl_cons, ih (combine1 cur it), List.map_cons]
    exact combine1_bestPE cur it _

/-- The central characterization: the consolidated entry for a canonical
store carries the cheapest verified price when a verified offer exists for
that store, otherwise the cheapest estimated price. -/
theorem peOpt_consolidate (l : List Offer) (k : String) :
    peOpt (lookupA (consolidate_prices l) k) = bestPE (itemsPE l k) := by
  unfold consolidate_prices itemsPE
  rw [show (List.foldl consolidStep [] l) = List.foldl consolidStep ([] : List (String × Entry)) l from rfl]
  rw [lookupA_foldl_consolid l [] k]
  have h := foldl_combine1_pe (effOffers l k) none
  simpa [curPE] using h

/-! Consequences of the characterization. -/

theorem peOpt_eq_some {c : Option Entry} {x : ℚ × Bool} (h : peOpt c = some x) :
    ∃ e, c = some e ∧ e.price = x.1 ∧ e.estimated = x.2 := by
  cases c with
  | none => simp [peOpt] at h
  | some e =>
    refine ⟨e, rfl, ?_, ?_⟩ <;> simp [peOpt] at h <;> simp [← h]

theorem mem_verPrices {p : ℚ} {l : List (ℚ × Bool)} (h : (p, false) ∈ l) :
    p ∈ verPrices l :=
  List.mem_map.2 ⟨(p, false), List.mem_filter.2 ⟨h, by simp⟩, rfl⟩

theorem mem_estPrices {p : ℚ} {l : List (ℚ × Bool)} (h : (p, true) ∈ l) :
    p ∈ estPrices l :=
  List.mem_map.2 ⟨(p, true), List.mem_filter.2 ⟨h, by simp⟩, rfl⟩

theorem mem_effOffers {o : Offer} {l : List Offer} {it : EffOffer}
    (ho : o ∈ l) (he : effOffer o = some it) : it ∈ effOffers l it.key :=
  List.mem_filter.2 ⟨List.mem_filterMap.2 ⟨o, ho, he⟩, by simp⟩

/-- The consolidated entry for a store with at least one verified offer is
verified and carries the minimum verified price. -/
theorem consolidate_spec_verified {l : List Offer} {k : String}
    (h : verifiedPrices l k ≠ []) :
    ∃ e, lookupA (consolidate_prices l) k = some e ∧ e.estimated = false ∧
      e.price ∈ verifiedPrices l k ∧ ∀ p ∈ verifiedPrices l k, e.price ≤ p := by
  have hchar := peOpt_consolidate l k
  cases hm : minQ (verifiedPrices l k) with
  | none => exact absurd (minQ_eq_none_iff _ |>.1 hm) h
  | some m =>
    have hbest : bestPE (itemsPE l k) = some (m, false) := by
      unfold bestPE
      rw [show verPrices (itemsPE l k) = verifiedPrices l k from rfl, hm]
    rw [hbest] at hchar
    obtain ⟨e, hee, hp, hest⟩ := peOpt_eq_some hchar
    exact ⟨e, hee, hest, hp ▸ minQ_mem hm, fun p hp' => hp ▸ minQ_le hm p hp'⟩

/-- The consolidated entry for a store with only estimated offers is
estimated and carries the minimum estimated price. -/
theorem consolidate_spec_estimated {l : List Offer} {k : String}
    (hv : verifiedPrices l k = []) (h : estimatedPrices l k ≠ []) :
    ∃ e, lookupA (consolidate_prices l) k = some e ∧ e.estimated = true ∧
      e.price ∈ estimatedPrices l k ∧ ∀ p ∈ estimatedPrices l k, e.price ≤ p := by
  have hchar := peOpt_consolidate l k
  cases hm : minQ (estimatedPrices l k) with
  | none => exact absurd (minQ_eq_none_iff _ |>.1 hm) h
  | some m =>
    have hvnone : minQ (verPrices (itemsPE l k)) = none := by
      rw [show verPrices (itemsPE l k) = verifiedPrices l k from rfl, hv]
      rfl
    have hbest : bestPE (itemsPE l k) = some (m, true) := by
      unfold bestPE
      rw [hvnone, show estPrices (itemsPE l k) = estimatedPrices l k from rfl, hm]
    rw [hbest] at hchar
    obtain ⟨e, hee, hp, hest⟩ := peOpt_eq_some hchar
    exact ⟨e, hee, hest, hp ▸ minQ_mem hm, fun p hp' => hp ▸ minQ_le hm p hp'⟩

/-- Consolidated prices come verbatim from the effective input offers. -/
theorem consolidate_price_mem {l : List Offer} {k : String} {e : Entry}
    (h : lookupA (consolidate_prices l) k = some e) :
    e.price ∈ parsedPricesFor l k := by
  have hchar := peOpt_consolidate l k
  rw [h] at hchar
  have hpe : bestPE (itemsPE l k) = some (e.price, e.estimated) := by
    rw [← hchar]; rfl
  unfold bestPE at hpe
  cases hm : minQ (verPrices (itemsPE l k)) with
  | some m =>
    rw [hm] at hpe
    simp only [Option.some.injEq, Prod.mk.injEq] at hpe
    have := minQ_mem hm
    rw [hpe.1] at this
    obtain ⟨⟨p, b⟩, hmem, hfst⟩ := List.mem_map.1 this
    obtain ⟨it, hit, hpe'⟩ := List.mem_map.1 (List.mem_filter.1 hmem).1
    refine List.mem_map.2 ⟨it, hit, ?_⟩
    have : it.price = p := congrArg Prod.fst hpe'
    simp at hfst
    rw [this, hfst]
  | none =>
    rw [hm] at hpe
    cases hm' : minQ (estPrices (itemsPE l k)) with
    | none => rw [hm'] at hpe; simp at hpe
    | some m =>
      rw [hm'] at hpe
      simp only [Option.some.injEq, Prod.mk.injEq] at hpe
      have := minQ_mem hm'
      rw [hpe.1] at this
      obtain ⟨⟨p, b⟩, hmem, hfst⟩ := List.mem_map.1 this
      obtain ⟨it, hit, hpe'⟩ := List.mem_map.1 (List.mem_filter.1 hmem).1
      refine List.mem_map.2 ⟨it, hit, ?_⟩
      have : it.price = p := congrArg Prod.fst hpe'
      simp at hfst
      rw [this, hfst]

/-! Permutation invariance and idempotence. -/

theorem itemsPE_perm {l l' : List Offer} (h : l.Perm l') (k : String) :
    (itemsPE l k).Perm (itemsPE l' k) :=
  (((h.filterMap effOffer).filter _).map _)

theorem bestPE_perm {l l' : List (ℚ × Bool)} (h : l.Perm l') :
    bestPE l = bestPE l' := by
  refine bestPE_congr (minQ_perm ?_) (minQ_perm ?_)
  · exact (h.filter _).map _
  · exact (h.filter _).map _

theorem consolidate_perm_pe {l l' : List Offer} (h : l.Perm l') (k : String) :
    peOpt (lookupA (consolidate_prices l) k) =
      peOpt (lookupA (consolidate_prices l') k) := by
  rw [peOpt_consolidate, peOpt_consolidate]
  exact bestPE_perm (itemsPE_perm h k)

theorem foldl_fixed {α β : Type} {f : α → β → α} {s : α} :
    ∀ {m : List β}, (∀ x ∈ m, f s x = s) → List.foldl f s m = s := by
  intro m
  induction m with
  | nil => intro _; rfl
  | cons x xs ih =>
    intro h
    rw [List.foldl_cons, h x (List.mem_cons_self x xs)]
    exact ih fun y hy => h y (List.mem_cons_of_mem x hy)

/-- Re-processing an offer already folded in leaves the dict unchanged. -/
theorem consolidStep_fixpoint {l : List Offer} {o : Offer} (ho : o ∈ l) :
    consolidStep (consolidate_prices l) o = consolidate_prices l := by
  cases he : effOffer o with
  | none => exact consolidStep_skip he _
  | some it =>
    have hmem : it ∈ effOffers l it.key := mem_effOffers ho he
    have hpair : (it.price, it.estimated) ∈ itemsPE l it.key :=
      List.mem_map.2 ⟨it, hmem, rfl⟩
    rw [consolidStep_eff he]
    cases hit : it.estimated with
    | false =>
      have hne : verifiedPrices l it.key ≠ [] := by
        intro hc
        have := mem_verPrices (hit ▸ hpair)
        rw [show verPrices (itemsPE l it.key) = verifiedPrices l it.key from rfl,
          hc] at this
        exact absurd this (List.not_mem_nil _)
      obtain ⟨e, he', hest, hmem', hle⟩ := consolidate_spec_verified hne
      rw [he']
      have h2' : ¬ it.price < e.price :=
        not_lt.2 (hle _ (mem_verPrices (hit ▸ hpair)))
      simp [hest, h2']
    | true =>
      cases hv : minQ (verifiedPrices l it.key) with
      | some m =>
        have hne : verifiedPrices l it.key ≠ [] := by
          intro hc
          rw [hc] at hv
          simp [minQ] at hv
        obtain ⟨e, he', hest, hmem', hle⟩ := consolidate_spec_verified hne
        rw [he']
        simp [hest]
      | none =>
        have hv' : verifiedPrices l it.key = [] := minQ_eq_none_iff _ |>.1 hv
        have hne : estimatedPrices l it.key ≠ [] := by
          intro hc
          have := mem_estPrices (hit ▸ hpair)
          rw [show estPrices (itemsPE l it.key) = estimatedPrices l it.key from rfl,
            hc] at this
          exact absurd this (List.not_mem_nil _)
        obtain ⟨e, he', hest, hmem', hle⟩ := consolidate_spec_estimated hv' hne
        rw [he']
        have h2' : ¬ it.price < e.price :=
          not_lt.2 (hle _ (mem_estPrices (hit ▸ hpair)))
        simp [hest, h2']

theorem consolidate_idem (l : List Offer) :
    consolidate_prices (l ++ l) = consolidate_prices l := by
  unfold consolidate_prices
  rw [List.foldl_append]
  exact foldl_fixed fun o ho => consolidStep_fixpoint ho

/-! ### Range lemmas for the extraction strategies -/

/-- Products appended by a guarded fold step satisfy the guard's property. -/
theorem mem_foldl_guard {β : Type} {Q : Product → Prop}
    {step : List Product → β → List Product}
    (H : ∀ acc x p, p ∈ step acc x → p ∈ acc ∨ Q p) :
    ∀ (bs : List β) (acc : List Product) (p : Product),
      p ∈ List.foldl step acc bs → p ∈ acc ∨ Q p := by
  intro bs
  induction bs with
  | nil => intro acc p hp; exact Or.inl hp
  | cons b rest ih =>
    intro acc p hp
    rcases ih (step acc b) p hp with h | h
    · exact H acc b p h
    · exact Or.inr h

theorem pure_ok_inj {α : Type} {x y : α} (h : (pure x : Except PyErr α) = .ok y) :
    x = y := by
  have h' : Except.ok x = Except.ok y := h
  exact Except.ok.inj h'

theorem except_bind_ok {α β : Type} {e : Except PyErr α} {f : α → Except PyErr β}
    {b : β} (h : e >>= f = .ok b) : ∃ a, e = .ok a ∧ f a = .ok b := by
  cases e with
  | error err => simp [Bind.bind, Except.bind] at h
  | ok a => exact ⟨a, rfl, by simpa [Bind.bind, Except.bind] using h⟩

theorem vtexStateValue_range {v : JVal} {pr : Product}
    (h : vtexStateValue v = .ok (some pr)) :
    5 ≤ pr.price ∧ pr.price ≤ 50000 := by
  cases v <;> simp only [vtexStateValue] at h
  case jnull => exact Option.noConfusion (pure_ok_inj h)
  case jbool b => exact Option.noConfusion (pure_ok_inj h)
  case jnum q => exact Option.noConfusion (pure_ok_inj h)
  case jstr str => exact Option.noConfusion (pure_ok_inj h)
  case jarr a => exact Option.noConfusion (pure_ok_inj h)
  case jobj l =>
    split at h
    · obtain ⟨price, hE, hrest⟩ := except_bind_ok h
      split at hrest
      · split at hrest
        · split at hrest
          all_goals
            split at hrest
            · rename_i hr
              have hpr := Option.some.inj (pure_ok_inj hrest)
              rw [← hpr]
              exact hr
            · exact Option.noConfusion (pure_ok_inj hrest)
        · exact Option.noConfusion (pure_ok_inj hrest)
      · exact Option.noConfusion (pure_ok_inj hrest)
    · exact Option.noConfusion (pure_ok_inj h)

theorem mem_vtexStateGo {p : Product} :
    ∀ (items : List (String × JVal)) (acc : List Product),
      p ∈ vtexStateGo items acc →
      p ∈ acc ∨ ∃ v, vtexStateValue v = .ok (some p) := by
  intro items
  induction items with
  | nil => intro acc hp; exact Or.inl hp
  | cons kv rest ih =>
    intro acc hp
    rw [vtexStateGo] at hp
    cases hv : vtexStateValue kv.2 with
    | error e => rw [hv] at hp; exact Or.inl hp
    | ok op =>
      cases op with
      | none => rw [hv] at hp; exact ih acc hp
      | some pr =>
        rw [hv] at hp
        rcases ih (acc ++ [pr]) hp with h | h
        · rcases List.mem_append.1 h with h' | h'
          · exact Or.inl h'
          · exact Or.inr ⟨kv.2, by rw [hv, List.mem_singleton.1 h']⟩
        · exact Or.inr h

theorem vtexState_range {html : String} {p : Product}
    (hp : p ∈ vtexStateProducts html) : 5 ≤ p.price ∧ p.price ≤ 50000 := by
  unfold vtexStateProducts at hp
  split at hp
  · simp at hp
  · split at hp
    · simp at hp
    · rcases mem_vtexStateGo _ [] hp with h | ⟨v, hv⟩
      · simp at h
      · exact vtexStateValue_range hv
    · simp at hp

theorem vtexRender_range {html : String} {p : Product}
    (hp : p ∈ vtexRenderProducts html) : 5 ≤ p.price ∧ p.price ≤ 50000 := by
  unfold vtexRenderProducts at hp
  refine Or.elim (mem_foldl_guard (Q := fun pr => 5 ≤ pr.price ∧ pr.price ≤ 50000)
      ?side _ [] p hp) (fun h => absurd h (List.not_mem_nil p)) id
  case side =>
    intro acc x pr hpr
    simp only [] at hpr
    split at hpr
    · split at hpr
      all_goals
        split at hpr
        · rename_i hr
          rcases List.mem_append.1 hpr with h' | h'
          · exact Or.inl h'
          · rw [List.mem_singleton.1 h']
            exact Or.inr hr
        · exact Or.inl hpr
    · exact Or.inl hpr

theorem vtexQuery_range {html : String} {p : Product}
    (hp : p ∈ vtexQueryProducts html) : 5 ≤ p.price ∧ p.price ≤ 50000 := by
  unfold vtexQueryProducts at hp
  refine Or.elim (mem_foldl_guard (Q := fun pr => 5 ≤ pr.price ∧ pr.price ≤ 5000)
      ?side _ [] p hp) (fun h => absurd h (List.not_mem_nil p))
    (fun h => ⟨h.1, le_trans h.2 (by norm_num)⟩)
  case side =>
    intro acc x pr hpr
    simp only [] at hpr
    split at hpr
    · split at hpr
      · rename_i hr
        rcases List.mem_append.1 hpr with h' | h'
        · exact Or.inl h'
        · rw [List.mem_singleton.1 h']
          exact Or.inr hr
      · exact Or.inl hpr
    · exact Or.inl hpr

theorem vtexSimple_range {html : String} {p : Product}
    (hp : p ∈ vtexSimpleProducts html) : 5 ≤ p.price ∧ p.price ≤ 50000 := by
  unfold vtexSimpleProducts at hp
  refine Or.elim (mem_foldl_guard (Q := fun pr => 5 ≤ pr.price ∧ pr.price ≤ 5000)
      ?side _ [] p hp) (fun h => absurd h (List.not_mem_nil p))
    (fun h => ⟨h.1, le_trans h.2 (by norm_num)⟩)
  case side =>
    intro acc x pr hpr
    simp only [] at hpr
    split at hpr
    · split at hpr
      all_goals
        split at hpr
        · rename_i hr
          rcases List.mem_append.1 hpr with h' | h'
          · exact Or.inl h'
          · rw [List.mem_singleton.1 h']
            exact Or.inr hr
        · exact Or.inl hpr
    · exact Or.inl hpr

theorem generic_range {html : String} {p : Product}
    (hp : p ∈ genericProducts html) : 5 ≤ p.price ∧ p.price ≤ 50000 := by
  unfold genericProducts at hp
  refine Or.elim (mem_foldl_guard (Q := fun pr => 5 ≤ pr.price ∧ pr.price ≤ 50000)
      ?side _ [] p hp) (fun h => absurd h (List.not_mem_nil p)) id
  case side =>
    intro acc x pr hpr
    simp only [] at hpr
    split at hpr
    · split at hpr
      all_goals
        split at hpr
        · rename_i hr
          rcases List.mem_append.1 hpr with h' | h'
          · exact Or.inl h'
          · rw [List.mem_singleton.1 h']
            exact Or.inr hr
        · exact Or.inl hpr
    · exact Or.inl hpr

theorem htmlFallback_range {html : String} {p : Product}
    (hp : p ∈ htmlFallbackProducts html) : 5 ≤ p.price ∧ p.price ≤ 50000 := by
  unfold htmlFallbackProducts at hp
  refine Or.elim (mem_foldl_guard (Q := fun pr => 5 ≤ pr.price ∧ pr.price ≤ 50000)
      ?louter html_product_patterns [] p hp)
    (fun h => absurd h (List.not_mem_nil p)) id
  case louter =>
    intro acc re pr hpr
    simp only [] at hpr
    refine Or.elim (mem_foldl_guard (Q := fun pr => 5 ≤ pr.price ∧ pr.price ≤ 50000)
        ?linner _ acc pr hpr) Or.inl Or.inr
    case linner =>
      intro acc' x pr' hpr'
      simp only [] at hpr'
      split at hpr'
      · split at hpr'
        · rename_i hr
          rcases List.mem_append.1 hpr' with h' | h'
          · exact Or.inl h'
          · rw [List.mem_singleton.1 h']
            exact Or.inr hr
        · exact Or.inl hpr'
      · exact Or.inl hpr'

/-- Every product the cascade returns passed a 5–50,000 plausibility check,
provided the two unchecked strategies (JSON-LD and `__NEXT_DATA__`)
contributed nothing. -/
theorem extract_products_range {html : String} {l : List Product} {p : Product}
    (hex : extract_products_from_html html = .ok l) (hp : p ∈ l)
    (hjson : jsonLdProducts html = .ok [])
    (hnext : nextDataProducts html = []) :
    5 ≤ p.price ∧ p.price ≤ 50000 := by
  unfold extract_products_from_html at hex
  rw [hjson] at hex
  split at hex
  · rename_i heq
    simp at heq
  · rename_i p1 heq
    obtain rfl := Except.ok.inj heq
    split at hex
    · obtain rfl := Except.ok.inj hex
      simp at hp
    · simp only [] at hex
      split at hex
      · obtain rfl := Except.ok.inj hex
        exact vtexState_range hp
      · split at hex
        · obtain rfl := Except.ok.inj hex
          exact vtexRender_range hp
        · split at hex
          · obtain rfl := Except.ok.inj hex
            exact vtexQuery_range hp
          · split at hex
            · obtain rfl := Except.ok.inj hex
              exact vtexSimple_range hp
            · split at hex
              · rename_i h3
                rw [hnext] at h3
                simp at h3
              · split at hex
                · obtain rfl := Except.ok.inj hex
                  exact generic_range hp
                · obtain rfl := Except.ok.inj hex
                  exact htmlFallback_range hp

/-! ### Lemmas about the match scorer -/

theorem mem_pyDedupAux {x : String} :
    ∀ {l seen : List String}, x ∈ pyDedupAux seen l ↔ x ∈ l ∧ x ∉ seen := by
  intro l
  induction l with
  | nil => intro seen; simp [pyDedupAux]
  | cons y ys ih =>
    intro seen
    by_cases hy : y ∈ seen
    · rw [pyDedupAux, if_pos hy, ih]
      constructor
      · rintro ⟨h1, h2⟩
        exact ⟨List.mem_cons_of_mem _ h1, h2⟩
      · rintro ⟨h1, h2⟩
        rcases List.mem_cons.1 h1 with rfl | h1'
        · exact absurd hy h2
        · exact ⟨h1', h2⟩
    · rw [pyDedupAux, if_neg hy]
      constructor
      · intro h
        rcases List.mem_cons.1 h with rfl | h'
        · exact ⟨List.mem_cons_self _ _, hy⟩
        · rcases ih.1 h' with ⟨h1, h2⟩
          refine ⟨List.mem_cons_of_mem _ h1, fun hc => h2 ?_⟩
          exact List.mem_cons_of_mem _ hc
      · rintro ⟨h1, h2⟩
        rcases List.mem_cons.1 h1 with rfl | h1'
        · exact List.mem_cons_self _ _
        · by_cases hxy : x = y
          · subst hxy; exact List.mem_cons_self _ _
          · refine List.mem_cons_of_mem _ (ih.2 ⟨h1', fun hc => ?_⟩)
            rcases List.mem_cons.1 hc with h | h
            · exact hxy h
            · exact h2 h

theorem mem_pyDedup {x : String} {l : List String} : x ∈ pyDedup l ↔ x ∈ l := by
  unfold pyDedup
  rw [mem_pyDedupAux]
  simp

theorem nodup_pyDedupAux : ∀ (l seen : List String), (pyDedupAux seen l).Nodup := by
  intro l
  induction l with
  | nil => intro seen; simp [pyDedupAux]
  | cons y ys ih =>
    intro seen
    by_cases hy : y ∈ seen
    · rw [pyDedupAux, if_pos hy]
      exact ih seen
    · rw [pyDedupAux, if_neg hy]
      refine List.nodup_cons.2 ⟨fun hc => ?_, ih (y :: seen)⟩
      exact (mem_pyDedupAux.1 hc).2 (List.mem_cons_self _ _)

theorem nodup_pyDedup (l : List String) : (pyDedup l).Nodup :=
  nodup_pyDedupAux l []

theorem pyDedup_eq_nil_iff {l : List String} : pyDedup l = [] ↔ l = [] := by
  constructor
  · intro h
    cases l with
    | nil => rfl
    | cons x xs =>
      have : x ∈ pyDedup (x :: xs) := mem_pyDedup.2 (List.mem_cons_self _ _)
      rw [h] at this
      exact absurd this (List.not_mem_nil _)
  · rintro rfl; rfl

/-- The score is a probability-like value: always within `[0, 1]`. -/
theorem score_mem_unit (search_name found_name : String) :
    0 ≤ calculate_product_match_score search_name found_name ∧
      calculate_product_match_score search_name found_name ≤ 1 := by
  unfold calculate_product_match_score
  simp only []
  split
  · norm_num
  · split
    · norm_num
    · split
      · norm_num
      · rename_i hs hk hu
        set sk := pyDedup (normalize_product_name search_name) with hsk
        set fk := pyDedup (normalize_product_name found_name) with hfk
        have hnodup : (sk.filter (· ∈ fk)).Nodup := (nodup_pyDedup _).filter _
        have hsub : (sk.filter (· ∈ fk)) ⊆ pyDedup (sk ++ fk) := by
          intro y hy
          exact mem_pyDedup.2 (List.mem_append.2 (Or.inl (List.mem_of_mem_filter hy)))
        have hlen : (sk.filter (· ∈ fk)).length ≤ (pyDedup (sk ++ fk)).length :=
          (hnodup.subperm hsub).length_le
        have hlp : 0 < (pyDedup (sk ++ fk)).length := List.length_pos.2 hu
        have hpos : 0 < ((pyDedup (sk ++ fk)).length : ℚ) := by exact_mod_cast hlp
        have hj0 : 0 ≤ ((sk.filter (· ∈ fk)).length : ℚ) /
            ((pyDedup (sk ++ fk)).length : ℚ) := by positivity
        have hj1 : ((sk.filter (· ∈ fk)).length : ℚ) /
            ((pyDedup (sk ++ fk)).length : ℚ) ≤ 1 := by
          rw [div_le_one hpos]
          exact_mod_cast hlen
        split
        · constructor
          · refine le_min (by norm_num) ?_
            linarith
          · exact min_le_left _ _
        · exact ⟨hj0, hj1⟩

/-! ### The claims -/

set_option maxRecDepth 100000

/-- Claim C1: for every offer list and canonical store, when the store has
at least one verified (estimated = false) offer the consolidated entry is
verified — regardless of any cheaper estimated offer — and carries the
lowest verified price; when the store has only estimated offers the entry
carries the lowest estimated price.  A verified $30 offer therefore beats an
estimated $10 offer, and of two verified offers at $45 and $38 the $38 one
survives. -/
theorem consolidate_verified_over_estimated (l : List Offer) (k : String) :
    (verifiedPrices l k ≠ [] →
      ∃ e, lookupA (consolidate_prices l) k = some e ∧ e.estimated = false ∧
        e.price ∈ verifiedPrices l k ∧ ∀ p ∈ verifiedPrices l k, e.price ≤ p) ∧
    (verifiedPrices l k = [] → estimatedPrices l k ≠ [] →
      ∃ e, lookupA (consolidate_prices l) k = some e ∧ e.estimated = true ∧
        e.price ∈ estimatedPrices l k ∧ ∀ p ∈ estimatedPrices l k, e.price ≤ p) :=
  ⟨fun h => consolidate_spec_verified h,
   fun hv h => consolidate_spec_estimated hv h⟩

/-- Witness for C1 at the spec's own example: a verified $30 offer and an
estimated $10 offer for the same store. -/
theorem consolidate_verified_over_estimated_witness :
    verifiedPrices [offerVer30, offerEst10] "Soriana" ≠ [] ∧
    (∃ e, lookupA (consolidate_prices [offerVer30, offerEst10]) "Soriana" = some e ∧
      e.estimated = false ∧
      e.price ∈ verifiedPrices [offerVer30, offerEst10] "Soriana" ∧
      ∀ p ∈ verifiedPrices [offerVer30, offerEst10] "Soriana", e.price ≤ p) :=
  ⟨by with_unfolding_all decide,
   (consolidate_verified_over_estimated [offerVer30, offerEst10] "Soriana").1
     (by with_unfolding_all decide)⟩

/-- Claim C2 counterexample: the empty query string has an empty keyword
set, yet the score is 0.0, not the claimed neutral 0.5. -/
theorem score_empty_query_cex :
    normalize_product_name "" = [] ∧
    calculate_product_match_score "" "cloralex" ≠ 1/2 := by
  constructor
  · rfl
  · with_unfolding_all decide

/-- Claim C2 (amended): the score always lies in [0,1]; when either raw
string is empty the score is 0.0 (even though the query keyword set is then
empty); when both strings are nonempty and the query keyword set is empty
the score is the neutral 0.5. -/
theorem score_range_and_degenerate (s f : String) :
    (0 ≤ calculate_product_match_score s f ∧
      calculate_product_match_score s f ≤ 1) ∧
    (s = "" ∨ f = "" → calculate_product_match_score s f = 0) ∧
    (s ≠ "" → f ≠ "" → normalize_product_name s = [] →
      calculate_product_match_score s f = 1/2) := by
  refine ⟨score_mem_unit s f, ?_, ?_⟩
  · intro h
    unfold calculate_product_match_score
    rw [if_pos h]
  · intro hs hf hn
    unfold calculate_product_match_score
    rw [if_neg (by simp [hs, hf])]
    simp [hn, pyDedup, pyDedupAux]

/-- Witness for C2 (amended) on a stopword-only query. -/
theorem score_range_and_degenerate_witness :
    ("de" ≠ "" ∧ "cloralex" ≠ "" ∧ normalize_product_name "de" = []) ∧
    calculate_product_match_score "de" "cloralex" = 1/2 :=
  ⟨⟨by decide, by decide, by rfl⟩,
   (score_range_and_degenerate "de" "cloralex").2.2 (by decide) (by decide) rfl⟩

/-- Claim C3 counterexample: the JSON-LD strategy appends prices without
any plausibility check, so a price of 1 — far below the 5–50,000 bound — is
returned. -/
theorem extract_plausibility_cex :
    extract_products_from_html jsonldCheapHtml = .ok [⟨JVal.jstr "Cheap Thing", 1⟩] ∧
    ¬ (5 ≤ (1 : ℚ) ∧ (1 : ℚ) ≤ 50000) :=
  ⟨by with_unfolding_all rfl, by norm_num⟩

/-- Claim C3 (amended): every product the cascade returns passed the
5–50,000 plausibility bound, except those produced by the JSON-LD and
`__NEXT_DATA__` strategies, which append prices unchecked; under the
hypothesis that those two strategies contributed nothing, the bound holds
for every returned pair. -/
theorem extract_products_range_amended (html : String) (l : List Product)
    (p : Product) (hex : extract_products_from_html html = .ok l) (hp : p ∈ l)
    (hjson : jsonLdProducts html = .ok [])
    (hnext : nextDataProducts html = []) :
    5 ≤ p.price ∧ p.price ≤ 50000 :=
  extract_products_range hex hp hjson hnext

/-- Witness for C3 (amended) on a VTEX render-server page. -/
theorem extract_products_range_amended_witness :
    (extract_products_from_html vtexRenderHtml = .ok [vtexRenderProd] ∧
      vtexRenderProd ∈ [vtexRenderProd] ∧
      jsonLdProducts vtexRenderHtml = .ok [] ∧
      nextDataProducts vtexRenderHtml = []) ∧
    (5 ≤ vtexRenderProd.price ∧ vtexRenderProd.price ≤ 50000) :=
  ⟨⟨by with_unfolding_all rfl, List.mem_singleton_self _,
    by with_unfolding_all rfl, by with_unfolding_all rfl⟩,
   extract_products_range_amended vtexRenderHtml [vtexRenderProd]
     vtexRenderProd (by with_unfolding_all rfl)
     (List.mem_singleton_self _) (by with_unfolding_all rfl)
     (by with_unfolding_all rfl)⟩

/-- Claim C4: the response's store list is ascending-sorted by price,
`lowest` is its first element (none when empty), `count` is its length, and
an empty consolidation yields a normal success response with an empty list,
zero count and null lowest. -/
theorem api_response_shape (offers : List Offer) :
    List.Sorted byPrice (api_price_check_result offers).result.stores ∧
    (api_price_check_result offers).result.lowest =
      (api_price_check_result offers).result.stores.head? ∧
    (api_price_check_result offers).result.count =
      (api_price_check_result offers).result.stores.length ∧
    (api_price_check_result offers).success = true ∧
    (consolidate_prices offers = [] →
      api_price_check_result offers = ⟨true, ⟨[], none, 0⟩⟩) := by
  refine ⟨?_, rfl, rfl, rfl, ?_⟩
  · exact List.sorted_insertionSort byPrice _
  · intro h
    unfold api_price_check_result
    rw [h]
    rfl

/-- Witness for C4 at the empty offer list. -/
theorem api_response_shape_witness :
    consolidate_prices [] = [] ∧
    api_price_check_result [] = ⟨true, ⟨[], none, 0⟩⟩ :=
  ⟨rfl, (api_response_shape []).2.2.2.2 rfl⟩

/-- Claim C5 (code bug): on a page whose JSON-LD block parses to a non-dict
value (`null` here), `extract_products_from_html` raises `AttributeError`
instead of returning a list — the branch catches only `JSONDecodeError`. -/
theorem extract_jsonld_nondict_raises :
    extract_products_from_html jsonldNullHtml = .error .attributeError := by
  with_unfolding_all rfl

/-- Claim C6: the multipack detector accepts "Producto X 6 pack" and
rejects "Producto X 600ml". -/
theorem multipack_examples :
    is_multipack "Producto X 6 pack" = true ∧
    is_multipack "Producto X 600ml" = false :=
  ⟨by with_unfolding_all rfl, by with_unfolding_all rfl⟩

/-- Claim C7 counterexample: consolidation is not permutation-invariant on
the full per-store record — two same-class offers tied on price keep the
URL of whichever came first. -/
theorem consolidate_order_cex :
    ([offerTieA, offerTieB].Perm [offerTieB, offerTieA]) ∧
    consolidate_prices [offerTieA, offerTieB] ≠
      consolidate_prices [offerTieB, offerTieA] := by
  constructor
  · decide
  · with_unfolding_all decide

/-- Claim C7 (amended): consolidation is idempotent — folding a list
concatenated with itself gives exactly the same dict — and permutation of
the input leaves each store's kept price and provenance flag (though not
necessarily its URL/source fields) unchanged. -/
theorem consolidate_perm_idem (l l' : List Offer) (h : l.Perm l') :
    (∀ k, peOpt (lookupA (consolidate_prices l) k) =
      peOpt (lookupA (consolidate_prices l') k)) ∧
    consolidate_prices (l ++ l) = consolidate_prices l :=
  ⟨fun k => consolidate_perm_pe h k, consolidate_idem l⟩

/-- Witness for C7 (amended) on a two-element permutation. -/
theorem consolidate_perm_idem_witness :
    ([offerVer30, offerEst10].Perm [offerEst10, offerVer30]) ∧
    ((∀ k, peOpt (lookupA (consolidate_prices [offerVer30, offerEst10]) k) =
      peOpt (lookupA (consolidate_prices [offerEst10, offerVer30]) k)) ∧
    consolidate_prices ([offerVer30, offerEst10] ++ [offerVer30, offerEst10]) =
      consolidate_prices [offerVer30, offerEst10]) :=
  ⟨by decide, consolidate_perm_idem _ _ (by decide)⟩

/-- Claim C8: the score is not symmetric — an explicit pair of strings with
different scores in the two orders (0.5 against 0.0). -/
theorem score_asymmetry_exists :
    ∃ A B : String, calculate_product_match_score A B ≠
      calculate_product_match_score B A :=
  ⟨"de", "cloralex", by with_unfolding_all decide⟩

/-- Claim C9 counterexample: `consolidate_prices` applies no plausibility
filter — an input price of 1,000,000, far outside 5–50,000, survives into
the output. -/
theorem consolidate_no_filter_cex :
    lookupA (consolidate_prices [offerHuge]) "Tienda Random" =
      some ⟨"Tienda Random", 1000000, "u", "a", false⟩ ∧
    ¬ (5 ≤ (1000000 : ℚ) ∧ (1000000 : ℚ) ≤ 50000) :=
  ⟨by decide, by norm_num⟩

/-- Claim C9 (amended): `consolidate_prices` does not re-apply (or apply)
any plausibility filter: every output price is exactly one of the parsed
input prices for that store, in or out of range. -/
theorem consolidate_prices_passthrough (l : List Offer) (k : String) (e : Entry)
    (h : lookupA (consolidate_prices l) k = some e) :
    e.price ∈ parsedPricesFor l k :=
  consolidate_price_mem h

/-- Witness for C9 (amended) at the out-of-range offer. -/
theorem consolidate_prices_passthrough_witness :
    lookupA (consolidate_prices [offerHuge]) "Tienda Random" =
      some ⟨"Tienda Random", 1000000, "u", "a", false⟩ ∧
    (⟨"Tienda Random", 1000000, "u", "a", false⟩ : Entry).price ∈
      parsedPricesFor [offerHuge] "Tienda Random" :=
  ⟨by decide,
   consolidate_prices_passthrough [offerHuge] "Tienda Random" _ (by decide)⟩

/-- Claim C10: an offer whose price is missing (`None`), numerically zero,
or an unparseable string is silently skipped: removing it from the input
list leaves the consolidation unchanged, so it neither creates a store
entry nor displaces one, and a $0 offer is never reported. -/
theorem consolidate_skips_falsy (o : Offer)
    (h : o.price = .pnone ∨ o.price = .pnum 0 ∨
      ∃ s, o.price = .pstr s ∧ PVal.parse (.pstr s) = none) :
    ∀ l1 l2, consolidate_prices (l1 ++ o :: l2) = consolidate_prices (l1 ++ l2) := by
  have he : effOffer o = none := by
    rcases h with h | h | ⟨s0, hs, hp⟩
    · simp [effOffer, h, PVal.truthy]
    · simp [effOffer, h, PVal.truthy]
    · unfold effOffer
      rw [hs]
      split
      · rw [hp]
      · rfl
  intro l1 l2
  unfold consolidate_prices
  rw [List.foldl_append, List.foldl_append, List.foldl_cons, consolidStep_skip he]

/-- Witness for C10 at a zero-priced offer. -/
theorem consolidate_skips_falsy_witness :
    (offerZero.price = .pnone ∨ offerZero.price = .pnum 0 ∨
      ∃ s, offerZero.price = .pstr s ∧ PVal.parse (.pstr s) = none) ∧
    consolidate_prices ([] ++ offerZero :: [offerVer30]) =
      consolidate_prices ([] ++ [offerVer30]) :=
  ⟨Or.inr (Or.inl rfl),
   consolidate_skips_falsy offerZero (Or.inr (Or.inl rfl)) [] [offerVer30]⟩

end PriceChecker
